import Mathlib

/-!
# libffbb: the capture → convert → encode pipeline of `ffcamapi.cpp`

A shallow embedding of `src/src/ffcamapi.cpp` (with the declarations of
`src/public/ffcamapi.h`) and theorems about it.

Conventions of the embedding

* `uint32_t` values are natural numbers; every `uint32_t` product of the source
  is reduced with `u32` (modulo `2^32`), as the C arithmetic does.
* `int64_t` offsets are integers.  The `int` counter `frame_count` is an
  integer that every `frame_count++` reduces to the 32-bit two's complement
  range with `wrap_int`: signed overflow is undefined in C, and this is the
  value the compiled code produces.
* The structure `camera_buffer_t` is declared in `camera_api.h`, which is not
  part of the repository; its size is the parameter `sizeof_camera_buffer_t`.
* Where a call has undefined behaviour (a store outside the block allocated
  for it, a `push_back` on a deque that was never constructed) the functions
  below still return a value; the predicates `stores_in_bounds` and
  `vfcallback_defined` say when the call is defined.
* A byte buffer reached through a `uint8_t*` is a function from byte offsets
  (relative to the pointer) to byte values.  The destination buffer of the
  converter additionally records, in program order, every offset stored to.
* Calls into other libraries (`malloc`, `pthread_cond_signal`,
  `pthread_create`) are recorded as a list of effects.
* The encoder (`avcodec_encode_video2`) and the system call `write` are
  parameters: functions of the calls made so far and of the current arguments.
* Loops whose termination depends on such a parameter run on fuel.
-/

namespace FFCam

/-! ## Machine arithmetic -/

/-- Reduction of a natural number to the range of `uint32_t` (modulo `2^32`). -/
def u32 (n : Nat) : Nat := n % 4294967296

/-- Conversion of a `uint32_t` value to `int` (two's complement, 32 bit). -/
def int_of_u32 (n : Nat) : Int :=
  if n % 4294967296 < 2147483648 then (n % 4294967296 : Nat) else ((n % 4294967296 : Nat) : Int) - 4294967296

/-- The value an `int` holds after an arithmetic result `z`: its reduction to
the 32-bit two's complement range. -/
def wrap_int (z : Int) : Int := (z + 2147483648) % 4294967296 - 2147483648

/-- The value of an `int` counter that stood at `c` after `k` increments
`counter++`. -/
def advance (c : Int) : Nat → Int
  | 0 => c
  | k + 1 => wrap_int (advance c k + 1)

/-! ## Data model -/

/-- Result codes of `ffcamapi.h`. -/
inductive ffcamera_error where
  | FFCAMERA_OK
  | FFCAMERA_NOT_INITIALIZED
  | FFCAMERA_NO_CODEC_SPECIFIED
  | FFCAMERA_CODEC_NOT_FOUND
  | FFCAMERA_COULD_NOT_OPEN_CODEC
  | FFCAMERA_INVALID_DIMENSIONS
  | FFCAMERA_ALREADY_RUNNING
  | FFCAMERA_ALREADY_STOPPED
  deriving DecidableEq, Repr

/-- Pixel format tag of a camera buffer; only `CAMERA_FRAMETYPE_NV12` is
distinguished by the code, every other tag is `OTHER n`. -/
inductive camera_frametype_t where
  | CAMERA_FRAMETYPE_NV12
  | OTHER (tag : Nat)
  deriving DecidableEq, Repr

/-- Bytes reachable through a `uint8_t*`, by offset from the pointer. -/
abbrev Mem := Int → Nat

/-- The `framedesc.nv12` descriptor: `uint32_t height, width, stride` and
`int64_t uv_offset`. -/
structure camera_frame_nv12_t where
  height : Nat
  width : Nat
  stride : Nat
  uv_offset : Int

/-- The `camera_buffer_t` fields the code reads or writes.  The field
`framebuf_size` is the number of bytes allocated behind `framebuf`; it is not
stored in the C structure (it is what `malloc` was asked for). -/
structure camera_buffer_t where
  frametype : camera_frametype_t
  framesize : Nat
  framebuf : Mem
  framebuf_size : Nat
  framedesc : camera_frame_nv12_t

/-- The `ffcamera_reserved` structure: running flag, frame counter and the
frame queue (front of the deque first).  Mutex and condition variable carry no
data; signalling the condition is an effect.  The field `frames_constructed`
says whether the constructor of the `std::deque` member has run; it is not
stored in the C structure. -/
structure ffcamera_reserved where
  running : Bool
  frame_count : Int
  frames : List camera_buffer_t
  frames_constructed : Bool := true

/-- The `ffcamera_context` structure.  Pointers that may be `NULL` are options;
a configured encoder or callback is identified by a number. -/
structure ffcamera_context where
  codec_context : Option Nat
  fd : Int
  write_callback : Option Nat
  reserved : Option ffcamera_reserved

/-- Calls into other libraries that are visible outside the function. -/
inductive Effect where
  | malloc (size : Nat)
  | pthread_cond_signal
  | pthread_create_encoding_thread
  deriving DecidableEq, Repr

/-! ## Lifecycle operations -/

/-- The function `ffcamera_init` (lines 32-46).  The structure is obtained from
`malloc` (line 38), so the constructor of its deque never runs; the call of
`clear` on it (line 42) is taken to leave it as it is. -/
def ffcamera_init (ffc_context : ffcamera_context) : ffcamera_context :=
  { ffc_context with
    codec_context := none
    fd := 0
    write_callback := none
    reserved := some
      { frame_count := 0, running := true, frames := [], frames_constructed := false } }

/-- The function `ffcamera_start` (lines 100-115): result code, context
afterwards, effects. -/
def ffcamera_start (ffc_context : ffcamera_context) :
    ffcamera_error × ffcamera_context × List Effect :=
  match ffc_context.reserved with
  | none => (.FFCAMERA_NOT_INITIALIZED, ffc_context, [])
  | some ffc_reserved =>
    if ffc_reserved.running then (.FFCAMERA_ALREADY_RUNNING, ffc_context, [])
    else
      match ffc_context.codec_context with
      | none => (.FFCAMERA_NO_CODEC_SPECIFIED, ffc_context, [])
      | some _ =>
        (.FFCAMERA_OK,
         { ffc_context with
           reserved := some { ffc_reserved with frame_count := 0, running := true } },
         [.pthread_create_encoding_thread])

/-- The function `ffcamera_stop` (lines 117-127): result code, context
afterwards, effects. -/
def ffcamera_stop (ffc_context : ffcamera_context) :
    ffcamera_error × ffcamera_context × List Effect :=
  match ffc_context.reserved with
  | none => (.FFCAMERA_NOT_INITIALIZED, ffc_context, [])
  | some ffc_reserved =>
    if ffc_reserved.running then (.FFCAMERA_ALREADY_STOPPED, ffc_context, [])
    else
      (.FFCAMERA_OK,
       { ffc_context with reserved := some { ffc_reserved with running := false } },
       [.pthread_cond_signal])

/-! ## Frame converter (`ffcamera_vfcallback`) -/

/-- Destination buffer under construction: its bytes and the offsets stored to
so far, most recent first. -/
structure Dest where
  mem : Mem
  stores : List Int

/-- One byte store `dst[a] = v`. -/
def Dest.store (d : Dest) (a : Int) (v : Nat) : Dest :=
  { mem := fun x => if x = a then v else d.mem x, stores := a :: d.stores }

/-- The library call `memcpy(&dst[doff], &src[soff], n)` for buffers that do
not overlap: `n` byte stores in ascending order. -/
def memcpy (d : Dest) (doff : Int) (src : Mem) (soff : Int) : Nat → Dest
  | 0 => d
  | n + 1 => (memcpy d doff src soff n).store (doff + n) (src (soff + n))

/-- The luma loop (lines 261-266), state after the first `i` iterations.
Both offsets are `uint32_t` products. -/
def luma_loop (width stride _stride : Nat) (src : Mem) (d : Dest) : Nat → Dest
  | 0 => d
  | i + 1 =>
    memcpy (luma_loop width stride _stride src d i)
      (u32 (i * _stride)) src (u32 (i * stride)) width

/-- The pointers of the chroma loop and the destination buffer. -/
structure ChromaCursor where
  srcuv : Int
  curuv : Int
  destu : Int
  destv : Int
  dest : Dest

/-- The body of the inner chroma loop (lines 277-278):
`*destu++ = *curuv++; *destv++ = *curuv++;`. -/
def chroma_pair (src : Mem) (c : ChromaCursor) : ChromaCursor :=
  { c with
    curuv := c.curuv + 2
    destu := c.destu + 1
    destv := c.destv + 1
    dest := (c.dest.store c.destu (src c.curuv)).store c.destv (src (c.curuv + 1)) }

/-- The inner chroma loop (lines 275-279), state after `j` iterations. -/
def chroma_inner (src : Mem) : Nat → ChromaCursor → ChromaCursor
  | 0, c => c
  | j + 1, c => chroma_pair src (chroma_inner src j c)

/-- One iteration of the outer chroma loop (lines 274-280). -/
def chroma_row (src : Mem) (width stride : Nat) (c : ChromaCursor) : ChromaCursor :=
  let c1 := chroma_inner src (width / 2) { c with curuv := c.srcuv }
  { c1 with srcuv := c1.srcuv + stride }

/-- The outer chroma loop (lines 272-281), state after `i` iterations. -/
def chroma_loop (src : Mem) (width stride : Nat) : Nat → ChromaCursor → ChromaCursor
  | 0, c => c
  | i + 1, c => chroma_row src width stride (chroma_loop src width stride i c)

/-- The new chroma offset `_uv_offset = _stride * height` (lines 252-253). -/
def packed_uv_offset (width height : Nat) : Int := (u32 (width * height) : Nat)

/-- Start of the V plane, `_uv_offset + ((width * height) / 4)` (line 270). -/
def packed_v_offset (width height : Nat) : Int :=
  packed_uv_offset width height + ((u32 (width * height) / 4 : Nat) : Int)

/-- Size requested for the new frame buffer, `width * height * 3 / 2` in
`uint32_t` arithmetic (line 259). -/
def packed_size (width height : Nat) : Nat := u32 (u32 (width * height) * 3) / 2

/-- Lines 247-281: the destination buffer after both loops.  `fresh` is the
content of the newly allocated memory. -/
def convert_dest (fresh : Mem) (buf : camera_buffer_t) : Dest :=
  let uv_offset := buf.framedesc.uv_offset
  let height := buf.framedesc.height
  let width := buf.framedesc.width
  let stride := buf.framedesc.stride
  let _stride := width
  let d := luma_loop width stride _stride buf.framebuf { mem := fresh, stores := [] } height
  (chroma_loop buf.framebuf width stride (height / 2)
    { srcuv := uv_offset
      curuv := uv_offset
      destu := packed_uv_offset _stride height
      destv := packed_v_offset width height
      dest := d }).dest

/-- Lines 247-281: the converted frame `_buf`.  Lines 255-256 allocate a block
of `buf->framesize` bytes and copy that many bytes of `buf` into it.  When
`framesize` covers the structure (`sizeof_camera_buffer_t` bytes) the block
then holds the fields of `buf`; the bytes the copy reads behind the structure
are taken to be readable.  When it does not, the fields are those of `junk`:
what `malloc` returned, overwritten by the leading `framesize` bytes of `buf`,
which depends on the content of the heap and on the layout of the structure.
Lines 257-259 then assign stride, chroma offset and frame buffer. -/
def convert (sizeof_camera_buffer_t : Nat) (junk : camera_buffer_t) (fresh : Mem)
    (buf : camera_buffer_t) : camera_buffer_t :=
  let _buf := if sizeof_camera_buffer_t ≤ buf.framesize then buf else junk
  { _buf with
    framedesc :=
      { _buf.framedesc with
        stride := buf.framedesc.width
        uv_offset := packed_uv_offset buf.framedesc.width buf.framedesc.height }
    framebuf := (convert_dest fresh buf).mem
    framebuf_size := packed_size buf.framedesc.width buf.framedesc.height }

/-- The function `ffcamera_vfcallback` (lines 238-286): context afterwards and
effects.  `junk` is the content of the descriptor copy when line 256 did not
cover the structure, `fresh` the content of the memory `malloc` returns for the
new frame buffer. -/
def ffcamera_vfcallback (sizeof_camera_buffer_t : Nat) (junk : camera_buffer_t) (fresh : Mem)
    (buf : camera_buffer_t) (ffc_context : ffcamera_context) :
    ffcamera_context × List Effect :=
  if buf.frametype ≠ .CAMERA_FRAMETYPE_NV12 then (ffc_context, [])
  else
    match ffc_context.reserved with
    | none => (ffc_context, [])
    | some ffc_reserved =>
      if !ffc_reserved.running then (ffc_context, [])
      else
        let _buf := convert sizeof_camera_buffer_t junk fresh buf
        ({ ffc_context with
           reserved := some { ffc_reserved with frames := ffc_reserved.frames ++ [_buf] } },
         [.malloc buf.framesize,
          .malloc (packed_size buf.framedesc.width buf.framedesc.height),
          .pthread_cond_signal])

/-- A frame is accepted by `ffcamera_vfcallback` when it passes the guards of
lines 240 and 245. -/
def accepted (buf : camera_buffer_t) (ffc_context : ffcamera_context) : Prop :=
  buf.frametype = .CAMERA_FRAMETYPE_NV12 ∧
    ∃ r, ffc_context.reserved = some r ∧ r.running = true

/-- The frames one call of `ffcamera_vfcallback` added to the queue: what the
queue holds afterwards beyond its old length. -/
def enqueued (sizeof_camera_buffer_t : Nat) (junk : camera_buffer_t) (fresh : Mem)
    (buf : camera_buffer_t) (ffc_context : ffcamera_context) : List camera_buffer_t :=
  match ffc_context.reserved,
    (ffcamera_vfcallback sizeof_camera_buffer_t junk fresh buf ffc_context).1.reserved with
  | some r, some r' => r'.frames.drop r.frames.length
  | _, _ => []

/-- Whether the stores of lines 255-281 stay inside the two blocks the call
allocated: the block of `framesize` bytes holds the whole structure, so that
the assignments of lines 257-259 fall inside it, and every store into the frame
buffer is below the size requested at line 259.  A store outside its block is
undefined behaviour.  Where in the structure the three fields assigned lie is
not known here, so a block that holds only part of the structure counts as too
small. -/
def stores_in_bounds (sizeof_camera_buffer_t : Nat) (fresh : Mem) (buf : camera_buffer_t) :
    Bool :=
  decide (sizeof_camera_buffer_t ≤ buf.framesize) &&
    (convert_dest fresh buf).stores.all (fun a =>
      decide (0 ≤ a ∧
        a < ((packed_size buf.framedesc.width buf.framedesc.height : Nat) : Int)))

/-- Whether a call of `ffcamera_vfcallback` has defined behaviour.  A frame
dropped at line 240 or 245 touches nothing.  An accepted frame needs its stores
in bounds and, for the `push_back` of line 283, a deque that was constructed. -/
def vfcallback_defined (sizeof_camera_buffer_t : Nat) (fresh : Mem) (buf : camera_buffer_t)
    (ffc_context : ffcamera_context) : Bool :=
  if buf.frametype ≠ .CAMERA_FRAMETYPE_NV12 then true
  else
    match ffc_context.reserved with
    | none => true
    | some ffc_reserved =>
      if !ffc_reserved.running then true
      else ffc_reserved.frames_constructed &&
        stores_in_bounds sizeof_camera_buffer_t fresh buf

/-- The `AVFrame` fields the worker sets before an encode call (lines 179-187).
The three plane pointers are byte offsets into the frame buffer of `buf`. -/
structure AVFrame where
  buf : camera_buffer_t
  pts : Int
  linesize0 : Int
  linesize1 : Int
  linesize2 : Int
  data0 : Int
  data1 : Int
  data2 : Int

/-- What one call of `avcodec_encode_video2` hands back: its return value, the
`got_packet` flag and the bytes `packet.data[0 .. packet.size)`. -/
structure EncodeResult where
  success : Int
  got_packet : Int
  data : List Nat

/-- The encoder behind `codec_context`: its answer depends on the calls made
before (oldest first) and on the current input (`none` is the `NULL` frame). -/
abbrev Encoder := List (Option AVFrame) → Option AVFrame → EncodeResult

/-- A packet handed to one of the two sinks. -/
inductive SinkEvent where
  | write_all (fd : Int) (data : List Nat)
  | write_callback (cb : Nat) (data : List Nat)
  deriving DecidableEq, Repr

/-- Where the worker is: in the `while` loop of lines 160-206, in the
`do ... while` loop of lines 211-229, or returned. -/
inductive Phase where
  | encoding
  | flushing
  | exited
  deriving DecidableEq, Repr

/-- State of one run of `encoding_thread`.  `frames` is the local deque of line
149; `frame_count` is the `int` `ffc_reserved->frame_count`, which only the
worker writes while it runs; `calls`, `sink` and `freed` record, oldest first,
the encoder calls, the packets delivered and the frames released. -/
structure Worker where
  fd : Int
  codec_context : Option Nat
  frames : List camera_buffer_t
  frame_count : Int
  phase : Phase
  calls : List (Option AVFrame)
  sink : List SinkEvent
  freed : List camera_buffer_t

/-- Lines 144-158: the worker reads `fd` and `codec_context` and copy-constructs
its local deque from `ffc_reserved->frames`. -/
def encoding_thread_begin (ffc_context : ffcamera_context) (ffc_reserved : ffcamera_reserved) :
    Worker :=
  { fd := ffc_context.fd
    codec_context := ffc_context.codec_context
    frames := ffc_reserved.frames
    frame_count := ffc_reserved.frame_count
    phase := .encoding
    calls := []
    sink := []
    freed := [] }

/-- Lines 175-187: the frame handed to the encoder for `buf`. -/
def encoder_frame (buf : camera_buffer_t) (frame_position : Int) : AVFrame :=
  let uv_offset := buf.framedesc.uv_offset
  let height := buf.framedesc.height
  let width := buf.framedesc.width
  { buf := buf
    pts := frame_position
    linesize0 := int_of_u32 width
    linesize1 := int_of_u32 (width / 2)
    linesize2 := int_of_u32 (width / 2)
    data0 := 0
    data1 := uv_offset
    data2 := uv_offset + ((u32 (width * height) / 4 : Nat) : Int) }

/-- Lines 197-201 and 223-227: a packet goes to the callback if one is set,
otherwise to `write_all` on `fd`; nothing is delivered unless the call returned
`0` and `got_packet > 0`. -/
def deliver (fd : Int) (write_callback : Option Nat) (res : EncodeResult) : List SinkEvent :=
  if res.success = 0 ∧ res.got_packet > 0 then
    match write_callback with
    | none => [.write_all fd res.data]
    | some cb => [.write_callback cb res.data]
  else []

/-- One pass of the worker: one evaluation of the `while` condition of line 160
with its loop body, or one iteration of the flush loop.  `running` is the value
of `ffc_reserved->running` read at line 160 and `write_callback` the value of
`ffc_context->write_callback` read at lines 199 and 225.  Waiting on the
condition (lines 164-167) leaves the state as it is. -/
def encoding_thread_step (enc : Encoder) (write_callback : Option Nat) (running : Bool)
    (w : Worker) : Worker :=
  match w.phase with
  | .encoding =>
    if running || !w.frames.isEmpty then
      match w.frames with
      | [] => w
      | buf :: rest =>
        let frame_position := w.frame_count
        let frame := encoder_frame buf frame_position
        let res := enc w.calls (some frame)
        { w with
          frames := rest
          frame_count := wrap_int (w.frame_count + 1)
          calls := w.calls ++ [some frame]
          sink := w.sink ++ deliver w.fd write_callback res
          freed := w.freed ++ [buf] }
    else { w with phase := .flushing }
  | .flushing =>
    let res := enc w.calls none
    { w with
      frame_count := wrap_int (w.frame_count + 1)
      calls := w.calls ++ [none]
      sink := w.sink ++ deliver w.fd write_callback res
      phase := if res.got_packet > 0 then .flushing else .exited }
  | .exited => w

/-- The worker after `n` passes; `running_at t` is the value of the running
flag the worker reads in pass `t`. -/
def encoding_thread_run (enc : Encoder) (write_callback : Option Nat)
    (running_at : Nat → Bool) : Nat → Worker → Worker
  | 0, w => w
  | n + 1, w =>
    encoding_thread_step enc write_callback (running_at n)
      (encoding_thread_run enc write_callback running_at n w)

/-- The encoder calls that carried an input frame, oldest first. -/
def input_calls (w : Worker) : List AVFrame := w.calls.filterMap id

/-- The frames `encoding_thread` hands to the encoder for a queue `fs` when the
counter stands at `c`: the queue in order, each frame numbered with the counter
value at its turn. -/
def numbered_frames : Int → List camera_buffer_t → List AVFrame
  | _, [] => []
  | c, f :: fs => encoder_frame f c :: numbered_frames (wrap_int (c + 1)) fs

/-- How an encoder addresses the sample in row `i`, column `j` of plane 0 of a
frame it is handed: the byte at `data[0] + i * linesize[0] + j`.  The encoder
is not part of this repository; this is the addressing convention of
`AVFrame`. -/
def plane0_byte (frame : AVFrame) (i j : Nat) : Nat :=
  frame.buf.framebuf (frame.data0 + (i : Int) * frame.linesize0 + (j : Int))

/-- The sample in row `i`, column `j` of plane 1, at
`data[1] + i * linesize[1] + j`. -/
def plane1_byte (frame : AVFrame) (i j : Nat) : Nat :=
  frame.buf.framebuf (frame.data1 + (i : Int) * frame.linesize1 + (j : Int))

/-- The sample in row `i`, column `j` of plane 2, at
`data[2] + i * linesize[2] + j`. -/
def plane2_byte (frame : AVFrame) (i j : Nat) : Nat :=
  frame.buf.framebuf (frame.data2 + (i : Int) * frame.linesize2 + (j : Int))

/-! ## The writer (`write_all`) -/

/-- One call `write(fd, buf + offset, count)` and the value it returned. -/
structure WriteCall where
  fd : Int
  offset : Int
  count : Int
  ret : Int
  deriving DecidableEq, Repr

/-- The system call `write`: its return value depends on the calls made before
(oldest first) and on its arguments, the descriptor, the offset of the pointer
into the buffer and the count. -/
abbrev Writer := List WriteCall → Int → Int → Int → Int

/-- The `do ... while` loop of `write_all` (lines 131-139) from the loop
variable `i`, with the calls made so far: the value returned (`none` when the
fuel runs out before the loop ends) and all calls made, oldest first. -/
def write_all_loop (write : Writer) (fd size : Int) :
    Nat → Int → List WriteCall → Option Int × List WriteCall
  | 0, _, calls => (none, calls)
  | fuel + 1, i, calls =>
    let j := write calls fd i (size - i)
    let calls1 := calls ++ [{ fd := fd, offset := i, count := size - i, ret := j }]
    if j < 0 then (some j, calls1)
    else if i + j < size then write_all_loop write fd size fuel (i + j) calls1
    else (some (i + j), calls1)

/-- The function `write_all` (lines 129-140). -/
def write_all (write : Writer) (fd size : Int) (fuel : Nat) : Option Int × List WriteCall :=
  write_all_loop write fd size fuel 0 []

/-- The bytes one call wrote: the first `ret` bytes from its offset. -/
def written (buf : Mem) (c : WriteCall) : List Nat :=
  (List.range c.ret.toNat).map (fun (k : Nat) => buf (c.offset + (k : Int)))

/-- The bytes a sequence of calls wrote, in call order. -/
def written_bytes (buf : Mem) : List WriteCall → List Nat
  | [] => []
  | c :: cs => written buf c ++ written_bytes buf cs

/-- Each call starts at the first byte not yet written: the first at `i`, the
next where the previous one stopped. -/
def back_to_back : Int → List WriteCall → Prop
  | _, [] => True
  | i, c :: cs => c.offset = i ∧ back_to_back (i + c.ret) cs

/-! ## Sequences of lifecycle calls -/

/-- What the application does with an initialised context: the three entry
points and an assignment to the field `codec_context`.  A callback carries the
arguments `junk`, `fresh` and `buf` of `ffcamera_vfcallback`. -/
inductive Call where
  | start
  | stop
  | vfcallback (junk : camera_buffer_t) (fresh : Mem) (buf : camera_buffer_t)
  | set_codec_context (codec : Option Nat)

/-- One call on a context: the context afterwards, the result code (the
callback and the assignment return nothing) and the effects; `none` when the
call has undefined behaviour. -/
def do_call (sizeof_camera_buffer_t : Nat) (ffc_context : ffcamera_context) :
    Call → Option (ffcamera_context × Option ffcamera_error × List Effect)
  | .start =>
    some ((ffcamera_start ffc_context).2.1, some (ffcamera_start ffc_context).1,
      (ffcamera_start ffc_context).2.2)
  | .stop =>
    some ((ffcamera_stop ffc_context).2.1, some (ffcamera_stop ffc_context).1,
      (ffcamera_stop ffc_context).2.2)
  | .vfcallback junk fresh buf =>
    if vfcallback_defined sizeof_camera_buffer_t fresh buf ffc_context then
      some ((ffcamera_vfcallback sizeof_camera_buffer_t junk fresh buf ffc_context).1, none,
        (ffcamera_vfcallback sizeof_camera_buffer_t junk fresh buf ffc_context).2)
    else none
  | .set_codec_context codec => some ({ ffc_context with codec_context := codec }, none, [])

/-- A sequence of calls: the context after the last one and, for each call, the
call with its result code and effects; `none` when one of the calls has
undefined behaviour. -/
def do_calls (sizeof_camera_buffer_t : Nat) (ffc_context : ffcamera_context) :
    List Call → Option (ffcamera_context × List (Call × Option ffcamera_error × List Effect))
  | [] => some (ffc_context, [])
  | c :: cs =>
    match do_call sizeof_camera_buffer_t ffc_context c with
    | none => none
    | some res =>
      match do_calls sizeof_camera_buffer_t res.1 cs with
      | none => none
      | some rest => some (rest.1, (c, res.2) :: rest.2)

/-- A call other than a callback that delivers an NV12 frame. -/
def no_nv12_frame : Call → Prop
  | .vfcallback _ _ buf => buf.frametype ≠ .CAMERA_FRAMETYPE_NV12
  | _ => True

/-! ## Store traces -/

/-- The offsets `base + n - 1, ..., base + 1, base`: the stores of `n`
consecutive bytes from `base` upwards, most recent first. -/
def span_trace (base : Int) : Nat → List Int
  | 0 => []
  | n + 1 => (base + (n : Int)) :: span_trace base n

/-- The stores of `n` passes of `*destu++ = ...; *destv++ = ...;` with `destu`
starting at `du` and `destv` at `dv`, most recent first: pass `p` stores at
`du + p` through `destu` and then at `dv + p` through `destv`. -/
def pair_trace (du dv : Int) : Nat → List Int
  | 0 => []
  | n + 1 => (dv + (n : Int)) :: (du + (n : Int)) :: pair_trace du dv n

/-! ## Concrete inputs -/

/-- A `write` that accepts at most three bytes per call. -/
def chunk_writer : Writer := fun _ _ _ count => min count 3

/-- A `write` that accepts at most three bytes per call twice and then fails
with `-1`. -/
def failing_writer : Writer := fun calls _ _ count =>
  if calls.length < 2 then min count 3 else -1

/-- An encoder that fails with `-1` on its second call and produces a one-byte
packet on every other call. -/
def failing_encoder : Encoder := fun calls _ =>
  if calls.length = 1 then { success := -1, got_packet := 0, data := [] }
  else { success := 0, got_packet := 1, data := [calls.length] }



/-- Source bytes: the byte at offset `a` is `a mod 251 + 1` (never zero). -/
def ramp : Mem := fun a => (a % 251).toNat + 1

/-- Memory holding zero everywhere. -/
def zeros : Mem := fun _ => 0

/-- An NV12 frame with the given geometry over the source bytes `ramp`, whose
`framesize` is 512. -/
def nv12_frame (width height stride : Nat) (uv_offset : Int) : camera_buffer_t :=
  { frametype := .CAMERA_FRAMETYPE_NV12
    framesize := 512
    framebuf := ramp
    framebuf_size := stride * height * 3 / 2
    framedesc := { height := height, width := width, stride := stride, uv_offset := uv_offset } }

/-- A descriptor block as `malloc` may return it, with every field zero. -/
def junk_block : camera_buffer_t :=
  { frametype := .OTHER 0
    framesize := 0
    framebuf := zeros
    framebuf_size := 0
    framedesc := { height := 0, width := 0, stride := 0, uv_offset := 0 } }

/-- A context before `ffcamera_init`. -/
def blank_context : ffcamera_context :=
  { codec_context := none, fd := 0, write_callback := none, reserved := none }

/-- A running pipeline with an encoder configured, the counter at 0 and an
empty, constructed queue. -/
def ready_context : ffcamera_context :=
  { codec_context := some 1
    fd := 0
    write_callback := none
    reserved := some { running := true, frame_count := 0, frames := [] } }

/-- A stopped pipeline without encoder: running flag clear, counter at 7, one
converted frame queued. -/
def idle_context : ffcamera_context :=
  { codec_context := none
    fd := 3
    write_callback := none
    reserved := some
      { running := false, frame_count := 7,
        frames := [convert 512 junk_block zeros (nv12_frame 16 16 20 320)] } }

/-- A running pipeline with an encoder, counter at 5, one converted frame
queued. -/
def running_context : ffcamera_context :=
  { codec_context := some 1
    fd := 3
    write_callback := none
    reserved := some
      { running := true, frame_count := 5,
        frames := [convert 512 junk_block zeros (nv12_frame 16 16 20 320)] } }

/-- Pipeline state with three converted 16x16 frames queued and the counter at
0. -/
def three_queued : ffcamera_reserved :=
  { running := true
    frame_count := 0
    frames :=
      [convert 512 junk_block zeros (nv12_frame 16 16 20 320),
       convert 512 junk_block zeros (nv12_frame 16 16 24 384),
       convert 512 junk_block zeros (nv12_frame 16 16 16 256)] }

/-- A running flag that is set during the first four passes of the worker and
clear from then on. -/
def stop_after_four : Nat → Bool := fun t => decide (t < 4)

/-- An encoder that never produces a packet. -/
def silent_encoder : Encoder := fun _ _ => { success := 0, got_packet := 0, data := [] }

/-- An encoder that produces a one-byte packet for every input frame and for
the first two flush calls after three input frames. -/
def buffering_encoder : Encoder := fun calls frame =>
  match frame with
  | some _ => { success := 0, got_packet := 1, data := [calls.length] }
  | none => { success := 0, got_packet := if calls.length < 5 then 1 else 0, data := [0] }

/-- A frame tagged with a pixel format other than NV12. -/
def other_frame : camera_buffer_t :=
  { nv12_frame 16 16 20 320 with frametype := .OTHER 7 }

/-- The 16x16 NV12 frame of stride 20 with a `framesize` of 0. -/
def short_frame : camera_buffer_t :=
  { nv12_frame 16 16 20 320 with framesize := 0 }

/-- Pipeline state with `2^31 + 1` converted 16x16 frames queued and the counter
at 0. -/
def many_queued : ffcamera_reserved :=
  { running := true
    frame_count := 0
    frames :=
      List.replicate (2147483648 + 1) (convert 512 junk_block zeros (nv12_frame 16 16 20 320)) }

/-- Pipeline state with three converted 16x16 frames queued and the counter two
below the largest `int`. -/
def three_queued_late : ffcamera_reserved :=
  { three_queued with frame_count := 2147483646 }

/-! ## Lemmas about the converter loops -/

theorem row_index_lt {i n k w : Nat} (hi : i < n) (hk : k < w) : i * w + k < n * w := by
  have h1 : (i + 1) * w ≤ n * w := Nat.mul_le_mul_right w hi
  have h2 : (i + 1) * w = i * w + w := by ring
  omega

theorem u32_of_lt {n : Nat} (h : n < 4294967296) : u32 n = n := by
  unfold u32
  omega

theorem u32_lt (n : Nat) : u32 n < 4294967296 := by
  unfold u32
  omega

theorem store_mem (d : Dest) (a : Int) (v : Nat) (x : Int) :
    (d.store a v).mem x = if x = a then v else d.mem x := rfl

theorem memcpy_mem (d : Dest) (doff : Int) (src : Mem) (soff : Int) (n : Nat) (a : Int) :
    (memcpy d doff src soff n).mem a =
      if doff ≤ a ∧ a < doff + n then src (soff + (a - doff)) else d.mem a := by
  induction n with
  | zero =>
    have h : ¬ (doff ≤ a ∧ a < doff + ((0 : Nat) : Int)) := by omega
    simp only [memcpy, if_neg h]
  | succ n ih =>
    simp only [memcpy, store_mem, ih]
    by_cases h1 : a = doff + n
    · have h2 : doff ≤ a ∧ a < doff + ((n + 1 : Nat) : Int) := by omega
      have h3 : soff + (a - doff) = soff + n := by omega
      rw [if_pos h1, if_pos h2, h3]
    · rw [if_neg h1]
      by_cases h2 : doff ≤ a ∧ a < doff + (n : Int)
      · have h3 : doff ≤ a ∧ a < doff + ((n + 1 : Nat) : Int) := by omega
        rw [if_pos h2, if_pos h3]
      · have h3 : ¬ (doff ≤ a ∧ a < doff + ((n + 1 : Nat) : Int)) := by omega
        rw [if_neg h2, if_neg h3]

/-- Bytes outside `[0, 2^32 + width)` are never touched by the luma loop. -/
theorem luma_loop_frame (w s : Nat) (src : Mem) (d : Dest) (n : Nat) (a : Int)
    (ha : a < 0 ∨ (4294967296 : Int) + w ≤ a) :
    (luma_loop w s w src d n).mem a = d.mem a := by
  induction n with
  | zero => rfl
  | succ n ih =>
    have hlt := u32_lt (n * w)
    have h : ¬ (((u32 (n * w) : Nat) : Int) ≤ a ∧ a < ((u32 (n * w) : Nat) : Int) + (w : Int)) := by
      omega
    simp only [luma_loop, memcpy_mem, if_neg h, ih]

/-- Without wrap-around of the destination offsets, bytes at or above
`n * width` are not touched by the first `n` rows of the luma loop. -/
theorem luma_loop_above (w s : Nat) (src : Mem) (d : Dest) (n : Nat)
    (hn : n * w ≤ 4294967296) (a : Int) (ha : ((n * w : Nat) : Int) ≤ a) :
    (luma_loop w s w src d n).mem a = d.mem a := by
  induction n with
  | zero => rfl
  | succ n ih =>
    have e : (n + 1) * w = n * w + w := by ring
    rcases Nat.eq_zero_or_pos w with hw | hw
    · subst hw
      simp only [luma_loop, memcpy]
      exact ih (by omega) (by simpa using ha)
    · have hlt : n * w < 4294967296 := by omega
      have h : ¬ (((u32 (n * w) : Nat) : Int) ≤ a ∧
          a < ((u32 (n * w) : Nat) : Int) + (w : Int)) := by
        rw [u32_of_lt hlt]
        omega
      simp only [luma_loop, memcpy_mem, if_neg h]
      exact ih (by omega) (by omega)

/-- Without wrap-around of the destination offsets, row `i`, column `k` of the
destination holds the byte at `u32 (i * stride) + k` of the source. -/
theorem luma_loop_value (w s : Nat) (src : Mem) (d : Dest) (n : Nat)
    (hn : n * w ≤ 4294967296) (i k : Nat) (hi : i < n) (hk : k < w) :
    (luma_loop w s w src d n).mem ((i * w + k : Nat) : Int) =
      src (((u32 (i * s) : Nat) : Int) + k) := by
  induction n with
  | zero => omega
  | succ n ih =>
    have e : (n + 1) * w = n * w + w := by ring
    have hlt : n * w < 4294967296 := by omega
    simp only [luma_loop, memcpy_mem, u32_of_lt hlt]
    by_cases hin : i = n
    · subst hin
      have h : ((i * w : Nat) : Int) ≤ ((i * w + k : Nat) : Int) ∧
          ((i * w + k : Nat) : Int) < ((i * w : Nat) : Int) + (w : Int) := by omega
      have h3 : (((i * w + k : Nat) : Int) - ((i * w : Nat) : Int)) = (k : Int) := by omega
      rw [if_pos h, h3]
    · have hi2 : i < n := by omega
      have hr := row_index_lt hi2 hk
      have h : ¬ (((n * w : Nat) : Int) ≤ ((i * w + k : Nat) : Int) ∧
          ((i * w + k : Nat) : Int) < ((n * w : Nat) : Int) + (w : Int)) := by omega
      rw [if_neg h]
      exact ih (by omega) hi2

/-- Pointers after `n` iterations of the inner chroma loop. -/
theorem chroma_inner_ptrs (src : Mem) (n : Nat) (c : ChromaCursor) :
    (chroma_inner src n c).srcuv = c.srcuv ∧
    (chroma_inner src n c).curuv = c.curuv + 2 * (n : Int) ∧
    (chroma_inner src n c).destu = c.destu + n ∧
    (chroma_inner src n c).destv = c.destv + n := by
  induction n with
  | zero => simp [chroma_inner]
  | succ n ih =>
    obtain ⟨h1, h2, h3, h4⟩ := ih
    simp only [chroma_inner, chroma_pair, h1, h2, h3, h4]
    refine ⟨trivial, ?_, ?_, ?_⟩ <;> push_cast <;> ring

/-- Bytes outside the two ranges written by the inner chroma loop keep their
value. -/
theorem chroma_inner_frame (src : Mem) (n : Nat) (c : ChromaCursor) (a : Int)
    (hu : a < c.destu ∨ c.destu + n ≤ a) (hv : a < c.destv ∨ c.destv + n ≤ a) :
    (chroma_inner src n c).dest.mem a = c.dest.mem a := by
  induction n with
  | zero => rfl
  | succ n ih =>
    obtain ⟨_, _, h3, h4⟩ := chroma_inner_ptrs src n c
    simp only [chroma_inner, chroma_pair, store_mem, h3, h4]
    have n1 : ¬ (a = c.destv + n) := by push_cast at hv; omega
    have n2 : ¬ (a = c.destu + n) := by push_cast at hu; omega
    rw [if_neg n1, if_neg n2]
    exact ih (by push_cast at hu; omega) (by push_cast at hv; omega)

/-- When the U range of a row lies below its V range, the inner chroma loop
stores the even source bytes in the U range and the odd ones in the V range. -/
theorem chroma_inner_value (src : Mem) (n : Nat) (c : ChromaCursor)
    (hsep : c.destu + n ≤ c.destv) (j : Nat) (hj : j < n) :
    (chroma_inner src n c).dest.mem (c.destu + j) = src (c.curuv + 2 * (j : Int)) ∧
    (chroma_inner src n c).dest.mem (c.destv + j) = src (c.curuv + 2 * (j : Int) + 1) := by
  induction n with
  | zero => omega
  | succ n ih =>
    obtain ⟨_, h2, h3, h4⟩ := chroma_inner_ptrs src n c
    simp only [chroma_inner, chroma_pair, store_mem, h2, h3, h4]
    push_cast at hsep
    by_cases hjn : j = n
    · subst hjn
      have n1 : ¬ (c.destu + (j : Int) = c.destv + j) := by omega
      exact ⟨by rw [if_neg n1, if_pos rfl], by rw [if_pos rfl]⟩
    · have hj2 : j < n := by omega
      obtain ⟨i1, i2⟩ := ih (by omega) hj2
      have n1 : ¬ (c.destu + (j : Int) = c.destv + n) := by omega
      have n2 : ¬ (c.destu + (j : Int) = c.destu + n) := by omega
      have n3 : ¬ (c.destv + (j : Int) = c.destv + n) := by omega
      have n4 : ¬ (c.destv + (j : Int) = c.destu + n) := by omega
      exact ⟨by rw [if_neg n1, if_neg n2, i1], by rw [if_neg n3, if_neg n4, i2]⟩

/-- Pointers after one iteration of the outer chroma loop. -/
theorem chroma_row_ptrs (src : Mem) (w s : Nat) (c : ChromaCursor) :
    (chroma_row src w s c).srcuv = c.srcuv + s ∧
    (chroma_row src w s c).destu = c.destu + ((w / 2 : Nat) : Int) ∧
    (chroma_row src w s c).destv = c.destv + ((w / 2 : Nat) : Int) := by
  obtain ⟨p1, _, p3, p4⟩ := chroma_inner_ptrs src (w / 2)
    { srcuv := c.srcuv, curuv := c.srcuv, destu := c.destu, destv := c.destv, dest := c.dest }
  exact ⟨by simpa [chroma_row] using p1, p3, p4⟩

/-- Bytes outside the two ranges written by one outer iteration keep their
value. -/
theorem chroma_row_frame (src : Mem) (w s : Nat) (c : ChromaCursor) (a : Int)
    (hu : a < c.destu ∨ c.destu + ((w / 2 : Nat) : Int) ≤ a)
    (hv : a < c.destv ∨ c.destv + ((w / 2 : Nat) : Int) ≤ a) :
    (chroma_row src w s c).dest.mem a = c.dest.mem a :=
  chroma_inner_frame src (w / 2)
    { srcuv := c.srcuv, curuv := c.srcuv, destu := c.destu, destv := c.destv, dest := c.dest }
    a hu hv

/-- One outer iteration stores pair `j` of the source chroma row at column `j`
of the U range and of the V range. -/
theorem chroma_row_value (src : Mem) (w s : Nat) (c : ChromaCursor)
    (hsep : c.destu + ((w / 2 : Nat) : Int) ≤ c.destv) (j : Nat) (hj : j < w / 2) :
    (chroma_row src w s c).dest.mem (c.destu + j) = src (c.srcuv + 2 * (j : Int)) ∧
    (chroma_row src w s c).dest.mem (c.destv + j) = src (c.srcuv + 2 * (j : Int) + 1) :=
  chroma_inner_value src (w / 2)
    { srcuv := c.srcuv, curuv := c.srcuv, destu := c.destu, destv := c.destv, dest := c.dest }
    hsep j hj

/-- Pointers after `m` iterations of the outer chroma loop. -/
theorem chroma_loop_ptrs (src : Mem) (w s : Nat) (m : Nat) (c : ChromaCursor) :
    (chroma_loop src w s m c).srcuv = c.srcuv + ((m * s : Nat) : Int) ∧
    (chroma_loop src w s m c).destu = c.destu + ((m * (w / 2) : Nat) : Int) ∧
    (chroma_loop src w s m c).destv = c.destv + ((m * (w / 2) : Nat) : Int) := by
  induction m with
  | zero => simp [chroma_loop]
  | succ m ih =>
    obtain ⟨h1, h2, h3⟩ := ih
    obtain ⟨p1, p3, p4⟩ := chroma_row_ptrs src w s (chroma_loop src w s m c)
    simp only [chroma_loop, p1, p3, p4, h1, h2, h3]
    have e1 : (m + 1) * s = m * s + s := by ring
    have e2 : (m + 1) * (w / 2) = m * (w / 2) + w / 2 := by ring
    rw [e1, e2]
    refine ⟨?_, ?_, ?_⟩ <;> omega

/-- Bytes outside the two ranges written by the outer chroma loop keep their
value. -/
theorem chroma_loop_frame (src : Mem) (w s : Nat) (m : Nat) (c : ChromaCursor) (a : Int)
    (hu : a < c.destu ∨ c.destu + ((m * (w / 2) : Nat) : Int) ≤ a)
    (hv : a < c.destv ∨ c.destv + ((m * (w / 2) : Nat) : Int) ≤ a) :
    (chroma_loop src w s m c).dest.mem a = c.dest.mem a := by
  induction m with
  | zero => rfl
  | succ m ih =>
    obtain ⟨_, h2, h3⟩ := chroma_loop_ptrs src w s m c
    have e : (m + 1) * (w / 2) = m * (w / 2) + w / 2 := by ring
    rw [e] at hu hv
    simp only [chroma_loop]
    rw [chroma_row_frame src w s _ a (by rw [h2]; omega) (by rw [h3]; omega)]
    exact ih (by omega) (by omega)

/-- When the whole U range lies below the V range, after `m` rows of the outer
chroma loop row `i`, column `j` of the U range holds the even byte and row `i`,
column `j` of the V range the odd byte of pair `j` in source chroma row `i`. -/
theorem chroma_loop_value (src : Mem) (w s : Nat) (m : Nat) (c : ChromaCursor)
    (hsep : c.destu + ((m * (w / 2) : Nat) : Int) ≤ c.destv)
    (i j : Nat) (hi : i < m) (hj : j < w / 2) :
    (chroma_loop src w s m c).dest.mem (c.destu + ((i * (w / 2) + j : Nat) : Int)) =
      src (c.srcuv + ((i * s : Nat) : Int) + 2 * (j : Int)) ∧
    (chroma_loop src w s m c).dest.mem (c.destv + ((i * (w / 2) + j : Nat) : Int)) =
      src (c.srcuv + ((i * s : Nat) : Int) + 2 * (j : Int) + 1) := by
  induction m with
  | zero => omega
  | succ m ih =>
    obtain ⟨h1, h2, h3⟩ := chroma_loop_ptrs src w s m c
    have e : (m + 1) * (w / 2) = m * (w / 2) + w / 2 := by ring
    rw [e] at hsep
    simp only [chroma_loop]
    by_cases him : i = m
    · subst him
      have hv := chroma_row_value src w s (chroma_loop src w s i c)
        (by rw [h2, h3]; omega) j hj
      rw [h1, h2, h3] at hv
      obtain ⟨v1, v2⟩ := hv
      have a1 : c.destu + ((i * (w / 2) + j : Nat) : Int) =
          c.destu + ((i * (w / 2) : Nat) : Int) + (j : Int) := by omega
      have a2 : c.destv + ((i * (w / 2) + j : Nat) : Int) =
          c.destv + ((i * (w / 2) : Nat) : Int) + (j : Int) := by omega
      exact ⟨by rw [a1, v1], by rw [a2, v2]⟩
    · have hi2 : i < m := by omega
      have hr := row_index_lt hi2 hj
      obtain ⟨i1, i2⟩ := ih (by omega) hi2
      constructor
      · rw [chroma_row_frame src w s _ _ (by rw [h2]; omega) (by rw [h3]; omega)]
        exact i1
      · rw [chroma_row_frame src w s _ _ (by rw [h2]; omega) (by rw [h3]; omega)]
        exact i2

/-! ## Lemmas about the converted frame -/

theorem packed_uv_offset_of_lt {w h : Nat} (hwh : w * h < 4294967296) :
    packed_uv_offset w h = ((w * h : Nat) : Int) := by
  unfold packed_uv_offset
  rw [u32_of_lt hwh]

theorem packed_v_offset_of_lt {w h : Nat} (hwh : w * h < 4294967296) :
    packed_v_offset w h = ((w * h + w * h / 4 : Nat) : Int) := by
  unfold packed_v_offset packed_uv_offset
  rw [u32_of_lt hwh]
  omega

theorem packed_size_of_lt {w h : Nat} (hwh : w * h * 3 < 4294967296) :
    packed_size w h = w * h * 3 / 2 := by
  unfold packed_size
  rw [u32_of_lt (show w * h < 4294967296 by omega), u32_of_lt hwh]

/-- The product of the halves is at most a quarter of the product. -/
theorem half_mul_half_le (w h : Nat) : (h / 2) * (w / 2) ≤ w * h / 4 := by
  have h1 : 2 * (h / 2) ≤ h := Nat.mul_div_le h 2
  have h2 : 2 * (w / 2) ≤ w := Nat.mul_div_le w 2
  have h3 : 2 * (h / 2) * (2 * (w / 2)) ≤ h * w := Nat.mul_le_mul h1 h2
  have h4 : 2 * (h / 2) * (2 * (w / 2)) = 4 * ((h / 2) * (w / 2)) := by ring
  have h5 : h * w = w * h := Nat.mul_comm h w
  omega

/-- For even width and height the product is four times the product of the
halves. -/
theorem half_mul_half_eq (w h : Nat) (hw : w % 2 = 0) (hh : h % 2 = 0) :
    w * h = 4 * ((h / 2) * (w / 2)) := by
  have h1 : h = 2 * (h / 2) := by omega
  have h2 : w = 2 * (w / 2) := by omega
  conv_lhs => rw [h1, h2]
  ring

/-- What `ffcamera_vfcallback` does with an accepted frame: it appends
`convert sz junk fresh buf` to the queue and signals the condition. -/
theorem vfcallback_accepted (sz : Nat) (junk : camera_buffer_t) (fresh : Mem) (buf : camera_buffer_t)
    (ctx : ffcamera_context)
    (r : ffcamera_reserved) (hnv : buf.frametype = .CAMERA_FRAMETYPE_NV12)
    (hr : ctx.reserved = some r) (hrun : r.running = true) :
    ffcamera_vfcallback sz junk fresh buf ctx =
      ({ ctx with reserved := some { r with frames := r.frames ++ [convert sz junk fresh buf] } },
       [.malloc buf.framesize,
        .malloc (packed_size buf.framedesc.width buf.framedesc.height),
        .pthread_cond_signal]) := by
  simp [ffcamera_vfcallback, hnv, hr, hrun]

/-- Luma bytes of the converted frame when `width * height` does not wrap: row
`i`, column `k` comes from source offset `u32 (i * stride) + k`. -/
theorem convert_luma (sz : Nat) (junk : camera_buffer_t) (fresh : Mem) (buf : camera_buffer_t)
    (hwh : buf.framedesc.width * buf.framedesc.height < 4294967296)
    (i k : Nat) (hi : i < buf.framedesc.height) (hk : k < buf.framedesc.width) :
    (convert sz junk fresh buf).framebuf ((i * buf.framedesc.width + k : Nat) : Int) =
      buf.framebuf (((u32 (i * buf.framedesc.stride) : Nat) : Int) + k) := by
  have hr := row_index_lt hi hk
  have hc : buf.framedesc.height * buf.framedesc.width =
      buf.framedesc.width * buf.framedesc.height := Nat.mul_comm _ _
  have hlt : i * buf.framedesc.width + k < 4294967296 := by omega
  show (convert_dest fresh buf).mem _ = _
  unfold convert_dest
  simp only []
  rw [chroma_loop_frame]
  · exact luma_loop_value _ _ _ _ _ (by omega) i k hi hk
  · left
    show _ < packed_uv_offset _ _
    rw [packed_uv_offset_of_lt hwh]
    omega
  · left
    show _ < packed_v_offset _ _
    rw [packed_v_offset_of_lt hwh]
    omega

/-- Chroma bytes of the converted frame when `width * height` does not wrap. -/
theorem convert_chroma (sz : Nat) (junk : camera_buffer_t) (fresh : Mem) (buf : camera_buffer_t)
    (hwh : buf.framedesc.width * buf.framedesc.height < 4294967296)
    (i j : Nat) (hi : i < buf.framedesc.height / 2) (hj : j < buf.framedesc.width / 2) :
    (convert sz junk fresh buf).framebuf
        (((buf.framedesc.width * buf.framedesc.height +
            (i * (buf.framedesc.width / 2) + j) : Nat)) : Int) =
      buf.framebuf (buf.framedesc.uv_offset + ((i * buf.framedesc.stride : Nat) : Int) +
        2 * (j : Int)) ∧
    (convert sz junk fresh buf).framebuf
        (((buf.framedesc.width * buf.framedesc.height +
            buf.framedesc.width * buf.framedesc.height / 4 +
            (i * (buf.framedesc.width / 2) + j) : Nat)) : Int) =
      buf.framebuf (buf.framedesc.uv_offset + ((i * buf.framedesc.stride : Nat) : Int) +
        2 * (j : Int) + 1) := by
  have hle := half_mul_half_le buf.framedesc.width buf.framedesc.height
  have hv := chroma_loop_value buf.framebuf buf.framedesc.width buf.framedesc.stride
    (buf.framedesc.height / 2)
    { srcuv := buf.framedesc.uv_offset
      curuv := buf.framedesc.uv_offset
      destu := packed_uv_offset buf.framedesc.width buf.framedesc.height
      destv := packed_v_offset buf.framedesc.width buf.framedesc.height
      dest := luma_loop buf.framedesc.width buf.framedesc.stride buf.framedesc.width
        buf.framebuf { mem := fresh, stores := [] } buf.framedesc.height }
    (by
      show packed_uv_offset _ _ + _ ≤ packed_v_offset _ _
      rw [packed_uv_offset_of_lt hwh, packed_v_offset_of_lt hwh]
      omega)
    i j hi hj
  simp only [packed_uv_offset_of_lt hwh, packed_v_offset_of_lt hwh] at hv
  obtain ⟨v1, v2⟩ := hv
  constructor
  · show (convert_dest fresh buf).mem _ = _
    unfold convert_dest
    simp only [packed_uv_offset_of_lt hwh, packed_v_offset_of_lt hwh]
    rw [← v1]
    congr 1
  · show (convert_dest fresh buf).mem _ = _
    unfold convert_dest
    simp only [packed_uv_offset_of_lt hwh, packed_v_offset_of_lt hwh]
    rw [← v2]
    congr 1

/-- An accepted frame adds exactly its converted copy to the queue. -/
theorem enqueued_accepted (sz : Nat) (junk : camera_buffer_t) (fresh : Mem) (buf : camera_buffer_t)
    (ctx : ffcamera_context)
    (hacc : accepted buf ctx) : enqueued sz junk fresh buf ctx = [convert sz junk fresh buf] := by
  obtain ⟨hnv, r, hr, hrun⟩ := hacc
  unfold enqueued
  rw [vfcallback_accepted sz junk fresh buf ctx r hnv hr hrun, hr]
  simp

theorem ready_context_accepts (width height stride : Nat) (uv_offset : Int) :
    accepted (nv12_frame width height stride uv_offset) ready_context :=
  ⟨rfl, _, rfl, rfl⟩

/-- The only frame an accepted call adds is `convert sz junk fresh buf`. -/
theorem eq_convert_of_enqueued (sz : Nat) (junk : camera_buffer_t) (fresh : Mem) (buf : camera_buffer_t)
    (ctx : ffcamera_context)
    (hacc : accepted buf ctx) (b : camera_buffer_t) (hb : enqueued sz junk fresh buf ctx = [b]) :
    b = convert sz junk fresh buf := by
  rw [enqueued_accepted sz junk fresh buf ctx hacc] at hb
  simpa using hb.symm

/-- Size of the buffer allocated for a frame of width `2^30` and height 2: the
product `width * height * 3` wraps around and `2^30` bytes are requested. -/
theorem packed_size_wrapped : packed_size 1073741824 2 = 1073741824 := by
  norm_num [packed_size, u32]

/-! ## C1: luma repacking -/

/-- C1 (as amended): for every accepted NV12 frame whose `width * height * 3`
does not wrap around in 32 bits, and for every row `i < height` whose source
offset `i * stride` does not wrap around and every column `k < width`, the
frame added to the queue has byte `i * width + k` equal to byte
`i * stride + k` of the source frame buffer, and that byte lies inside the
allocated buffer. -/
theorem luma_repacked (sz : Nat) (junk : camera_buffer_t) (fresh : Mem) (buf : camera_buffer_t)
    (ctx : ffcamera_context)
    (hacc : accepted buf ctx)
    (hwh : buf.framedesc.width * buf.framedesc.height * 3 < 4294967296)
    (i k : Nat) (hi : i < buf.framedesc.height) (hk : k < buf.framedesc.width)
    (hs : i * buf.framedesc.stride < 4294967296) :
    ∃ _buf, enqueued sz junk fresh buf ctx = [_buf] ∧
      _buf.framebuf ((i * buf.framedesc.width + k : Nat) : Int) =
        buf.framebuf ((i * buf.framedesc.stride + k : Nat) : Int) ∧
      i * buf.framedesc.width + k < _buf.framebuf_size := by
  refine ⟨convert sz junk fresh buf, enqueued_accepted sz junk fresh buf ctx hacc, ?_, ?_⟩
  · rw [convert_luma sz junk fresh buf (by omega) i k hi hk, u32_of_lt hs]
    congr 1
  · have hr := row_index_lt hi hk
    have hc : buf.framedesc.height * buf.framedesc.width =
        buf.framedesc.width * buf.framedesc.height := Nat.mul_comm _ _
    show _ < packed_size _ _
    rw [packed_size_of_lt hwh]
    omega

/-- Witness for C1 on a 16x16 frame of stride 20: row 3, column 5. -/
theorem luma_repacked_witness :
    ∃ _buf, enqueued 512 junk_block zeros (nv12_frame 16 16 20 320) ready_context = [_buf] ∧
      _buf.framebuf ((3 * 16 + 5 : Nat) : Int) = ramp ((3 * 20 + 5 : Nat) : Int) ∧
      3 * 16 + 5 < _buf.framebuf_size :=
  luma_repacked 512 junk_block zeros (nv12_frame 16 16 20 320) ready_context
    (ready_context_accepts 16 16 20 320) (by decide) 3 5 (by decide) (by decide) (by decide)

/-- C1 as stated fails.  For the accepted NV12 frame of width 1, height 3 and
stride `2^31`, the `uint32_t` product `2 * stride` wraps to `0`, so byte
`2 * 1 + 0` of the converted frame is source byte `0`, not source byte
`2 * 2^31 + 0`.  For the accepted NV12 frame of width `2^30` and height 2 the
product `width * height * 3` wraps and the converted buffer has `2^30` bytes:
it has no byte `1 * width + 0`. -/
theorem luma_repacked_fails_on_wrap :
    (accepted (nv12_frame 1 3 2147483648 6442450944) ready_context ∧
      1 ≤ 2147483648 ∧
      ¬ (∀ i k : Nat, i < 3 → k < 1 →
          ∃ _buf, enqueued 512 junk_block zeros (nv12_frame 1 3 2147483648 6442450944) ready_context = [_buf] ∧
            _buf.framebuf ((i * 1 + k : Nat) : Int) =
              (nv12_frame 1 3 2147483648 6442450944).framebuf
                ((i * 2147483648 + k : Nat) : Int))) ∧
    (accepted (nv12_frame 1073741824 2 1073741824 2147483648) ready_context ∧
      ¬ (∀ i k : Nat, i < 2 → k < 1073741824 →
          ∃ _buf, enqueued 512 junk_block zeros (nv12_frame 1073741824 2 1073741824 2147483648)
              ready_context = [_buf] ∧
            i * 1073741824 + k < _buf.framebuf_size)) := by
  refine ⟨⟨ready_context_accepts _ _ _ _, by decide, ?_⟩, ready_context_accepts _ _ _ _, ?_⟩
  · intro h
    obtain ⟨b, hb, hv⟩ := h 2 0 (by decide) (by decide)
    have hbe := eq_convert_of_enqueued 512 junk_block zeros _ _ (ready_context_accepts _ _ _ _) b hb
    subst hbe
    have hl := convert_luma 512 junk_block zeros (nv12_frame 1 3 2147483648 6442450944) (by decide) 2 0
      (by decide) (by decide)
    have e : (nv12_frame 1 3 2147483648 6442450944).framedesc.width = 1 := rfl
    rw [e] at hl
    rw [hl] at hv
    revert hv
    simp [nv12_frame, ramp, u32]
  · intro h
    obtain ⟨b, hb, hv⟩ := h 1 0 (by decide) (by decide)
    have hbe := eq_convert_of_enqueued 512 junk_block zeros _ _ (ready_context_accepts _ _ _ _) b hb
    subst hbe
    have hsz : (convert 512 junk_block zeros (nv12_frame 1073741824 2 1073741824 2147483648)).framebuf_size =
        packed_size 1073741824 2 := rfl
    rw [hsz, packed_size_wrapped] at hv
    omega

/-- A byte above the luma rows (whose offsets do not wrap) and above both chroma
ranges keeps the content of the fresh allocation. -/
theorem convert_above (sz : Nat) (junk : camera_buffer_t) (fresh : Mem) (buf : camera_buffer_t)
    (a : Int)
    (hl : buf.framedesc.height * buf.framedesc.width ≤ 4294967296)
    (ha : ((buf.framedesc.height * buf.framedesc.width : Nat) : Int) ≤ a)
    (hu : packed_uv_offset buf.framedesc.width buf.framedesc.height +
      (((buf.framedesc.height / 2) * (buf.framedesc.width / 2) : Nat) : Int) ≤ a)
    (hv : packed_v_offset buf.framedesc.width buf.framedesc.height +
      (((buf.framedesc.height / 2) * (buf.framedesc.width / 2) : Nat) : Int) ≤ a) :
    (convert sz junk fresh buf).framebuf a = fresh a := by
  show (convert_dest fresh buf).mem _ = _
  unfold convert_dest
  simp only []
  rw [chroma_loop_frame _ _ _ _ _ _ (Or.inr hu) (Or.inr hv)]
  exact luma_loop_above _ _ _ _ _ hl _ ha

/-! ## C2: chroma de-interleaving -/

/-- C2 (as amended): for every accepted NV12 frame whose `width * height * 3`
does not wrap around in 32 bits, and for every `i < height / 2` and
`j < width / 2`, the frame added to the queue records chroma offset
`width * height`, its U plane starts there and holds at `i * (width / 2) + j`
the source byte `uv_offset + i * stride + 2 * j`, and its V plane, which starts
at `width * height + (width * height) / 4`, holds at `i * (width / 2) + j` the
source byte `uv_offset + i * stride + 2 * j + 1`; both bytes lie inside the
allocated buffer. -/
theorem chroma_deinterleaved (sz : Nat) (junk : camera_buffer_t) (fresh : Mem) (buf : camera_buffer_t)
    (ctx : ffcamera_context)
    (hacc : accepted buf ctx)
    (hwh : buf.framedesc.width * buf.framedesc.height * 3 < 4294967296)
    (i j : Nat) (hi : i < buf.framedesc.height / 2) (hj : j < buf.framedesc.width / 2) :
    ∃ _buf, enqueued sz junk fresh buf ctx = [_buf] ∧
      _buf.framedesc.uv_offset = ((buf.framedesc.width * buf.framedesc.height : Nat) : Int) ∧
      _buf.framebuf
          ((buf.framedesc.width * buf.framedesc.height +
            (i * (buf.framedesc.width / 2) + j) : Nat) : Int) =
        buf.framebuf
          (buf.framedesc.uv_offset + ((i * buf.framedesc.stride : Nat) : Int) + 2 * (j : Int)) ∧
      _buf.framebuf
          ((buf.framedesc.width * buf.framedesc.height +
            buf.framedesc.width * buf.framedesc.height / 4 +
            (i * (buf.framedesc.width / 2) + j) : Nat) : Int) =
        buf.framebuf
          (buf.framedesc.uv_offset + ((i * buf.framedesc.stride : Nat) : Int) + 2 * (j : Int)
            + 1) ∧
      buf.framedesc.width * buf.framedesc.height +
          buf.framedesc.width * buf.framedesc.height / 4 +
          (i * (buf.framedesc.width / 2) + j) < _buf.framebuf_size := by
  have hlt : buf.framedesc.width * buf.framedesc.height < 4294967296 := by omega
  obtain ⟨v1, v2⟩ := convert_chroma sz junk fresh buf hlt i j hi hj
  refine ⟨convert sz junk fresh buf, enqueued_accepted sz junk fresh buf ctx hacc, ?_, v1, v2, ?_⟩
  · show packed_uv_offset _ _ = _
    exact packed_uv_offset_of_lt hlt
  · have hr := row_index_lt hi hj
    have hle := half_mul_half_le buf.framedesc.width buf.framedesc.height
    show _ < packed_size _ _
    rw [packed_size_of_lt hwh]
    omega

/-- Witness for C2 on a 16x16 frame of stride 20 with chroma at offset 320:
chroma row 2, pair 3. -/
theorem chroma_deinterleaved_witness :
    ∃ _buf, enqueued 512 junk_block zeros (nv12_frame 16 16 20 320) ready_context = [_buf] ∧
      _buf.framedesc.uv_offset = 256 ∧
      _buf.framebuf 275 = ramp 366 ∧
      _buf.framebuf 339 = ramp 367 ∧
      339 < _buf.framebuf_size :=
  chroma_deinterleaved 512 junk_block zeros (nv12_frame 16 16 20 320) ready_context
    (ready_context_accepts 16 16 20 320) (by decide) 2 3 (by decide) (by decide)

/-- C2 as stated fails.  For the accepted NV12 frame of width `2^31` and height
2 the `uint32_t` product `width * height` wraps to `0`, so the chroma loop
stores from offset `0` on and the byte at offset `width * height` of the
converted frame is never stored; it is not the first even chroma byte.  For the
accepted NV12 frame of width `2^30` and height 2 the product
`width * height * 3` wraps and the converted buffer has `2^30` bytes: offset
`width * height`, where the U plane should begin, is outside it. -/
theorem chroma_deinterleaved_fails_on_wrap :
    (accepted (nv12_frame 2147483648 2 2147483648 4294967296) ready_context ∧
      ¬ (∀ i j : Nat, i < 2 / 2 → j < 2147483648 / 2 →
          ∃ _buf, enqueued 512 junk_block zeros (nv12_frame 2147483648 2 2147483648 4294967296)
              ready_context = [_buf] ∧
            _buf.framebuf ((2147483648 * 2 + (i * (2147483648 / 2) + j) : Nat) : Int) =
              (nv12_frame 2147483648 2 2147483648 4294967296).framebuf
                (4294967296 + ((i * 2147483648 : Nat) : Int) + 2 * (j : Int)))) ∧
    (accepted (nv12_frame 1073741824 2 1073741824 2147483648) ready_context ∧
      ¬ (∀ i j : Nat, i < 2 / 2 → j < 1073741824 / 2 →
          ∃ _buf, enqueued 512 junk_block zeros (nv12_frame 1073741824 2 1073741824 2147483648)
              ready_context = [_buf] ∧
            1073741824 * 2 + (i * (1073741824 / 2) + j) < _buf.framebuf_size)) := by
  refine ⟨⟨ready_context_accepts _ _ _ _, ?_⟩, ready_context_accepts _ _ _ _, ?_⟩
  · intro h
    obtain ⟨b, hb, hv⟩ := h 0 0 (by decide) (by decide)
    have hbe := eq_convert_of_enqueued 512 junk_block zeros _ _ (ready_context_accepts _ _ _ _) b hb
    subst hbe
    have hz := convert_above 512 junk_block zeros (nv12_frame 2147483648 2 2147483648 4294967296) 4294967296
      (by norm_num [nv12_frame]) (by norm_num [nv12_frame])
      (by norm_num [packed_uv_offset, u32, nv12_frame])
      (by norm_num [packed_v_offset, packed_uv_offset, u32, nv12_frame])
    have e : ((2147483648 * 2 + (0 * (2147483648 / 2) + 0) : Nat) : Int) = 4294967296 := by
      decide
    rw [e, hz] at hv
    revert hv
    simp [nv12_frame, ramp, zeros]
  · intro h
    obtain ⟨b, hb, hv⟩ := h 0 0 (by decide) (by decide)
    have hbe := eq_convert_of_enqueued 512 junk_block zeros _ _ (ready_context_accepts _ _ _ _) b hb
    subst hbe
    have hsz : (convert 512 junk_block zeros (nv12_frame 1073741824 2 1073741824 2147483648)).framebuf_size =
        packed_size 1073741824 2 := rfl
    rw [hsz, packed_size_wrapped] at hv
    omega

/-! ## C3: packed layout -/

/-- Between the end of the U plane and the start of the V plane the converter
stores nothing. -/
theorem convert_gap (sz : Nat) (junk : camera_buffer_t) (fresh : Mem) (buf : camera_buffer_t)
    (hwh : buf.framedesc.width * buf.framedesc.height < 4294967296) (a : Nat)
    (h1 : buf.framedesc.width * buf.framedesc.height +
      (buf.framedesc.height / 2) * (buf.framedesc.width / 2) ≤ a)
    (h2 : a < buf.framedesc.width * buf.framedesc.height +
      buf.framedesc.width * buf.framedesc.height / 4) :
    (convert sz junk fresh buf).framebuf (a : Int) = fresh a := by
  have hc : buf.framedesc.height * buf.framedesc.width =
      buf.framedesc.width * buf.framedesc.height := Nat.mul_comm _ _
  show (convert_dest fresh buf).mem _ = _
  unfold convert_dest
  simp only [packed_uv_offset_of_lt hwh, packed_v_offset_of_lt hwh]
  rw [chroma_loop_frame _ _ _ _ _ _ (by right; simp only []; omega)
    (by left; simp only []; omega)]
  exact luma_loop_above _ _ _ _ _ (by omega) _ (by omega)

/-- C3 (as amended): for every accepted frame whose `framesize` is at least the
size of the structure `camera_buffer_t` and whose `width * height * 3` does
not wrap around in 32 bits, the frame added to the queue has a buffer of exactly
`width * height * 3 / 2` bytes and a descriptor recording stride `width`,
chroma offset `width * height` and the width and height of the source; luma
row `i` occupies
`[i * width, (i + 1) * width)`, the U plane of `(height / 2) * (width / 2)`
bytes starts at `width * height`, and the V plane of the same size starts at
`width * height + (width * height) / 4` and ends inside the buffer.  The V
plane never starts before the end of the U plane, and for even width and height
it starts immediately after the last U byte and ends at the end of the
buffer. -/
theorem packed_layout (sz : Nat) (junk : camera_buffer_t) (fresh : Mem) (buf : camera_buffer_t)
    (ctx : ffcamera_context) (hacc : accepted buf ctx) (hsz : sz ≤ buf.framesize)
    (hwh : buf.framedesc.width * buf.framedesc.height * 3 < 4294967296) :
    ∃ _buf, enqueued sz junk fresh buf ctx = [_buf] ∧
      _buf.framebuf_size = buf.framedesc.width * buf.framedesc.height * 3 / 2 ∧
      _buf.framedesc.stride = buf.framedesc.width ∧
      _buf.framedesc.uv_offset = ((buf.framedesc.width * buf.framedesc.height : Nat) : Int) ∧
      _buf.framedesc.width = buf.framedesc.width ∧
      _buf.framedesc.height = buf.framedesc.height ∧
      (∀ i k : Nat, i < buf.framedesc.height → k < buf.framedesc.width →
        _buf.framebuf ((i * buf.framedesc.width + k : Nat) : Int) =
          buf.framebuf (((u32 (i * buf.framedesc.stride) : Nat) : Int) + k)) ∧
      (∀ i j : Nat, i < buf.framedesc.height / 2 → j < buf.framedesc.width / 2 →
        _buf.framebuf
            ((buf.framedesc.width * buf.framedesc.height +
              (i * (buf.framedesc.width / 2) + j) : Nat) : Int) =
          buf.framebuf
            (buf.framedesc.uv_offset + ((i * buf.framedesc.stride : Nat) : Int) +
              2 * (j : Int)) ∧
        _buf.framebuf
            ((buf.framedesc.width * buf.framedesc.height +
              buf.framedesc.width * buf.framedesc.height / 4 +
              (i * (buf.framedesc.width / 2) + j) : Nat) : Int) =
          buf.framebuf
            (buf.framedesc.uv_offset + ((i * buf.framedesc.stride : Nat) : Int) +
              2 * (j : Int) + 1)) ∧
      (buf.framedesc.height / 2) * (buf.framedesc.width / 2) ≤
        buf.framedesc.width * buf.framedesc.height / 4 ∧
      buf.framedesc.width * buf.framedesc.height +
          buf.framedesc.width * buf.framedesc.height / 4 +
          (buf.framedesc.height / 2) * (buf.framedesc.width / 2) ≤
        buf.framedesc.width * buf.framedesc.height * 3 / 2 ∧
      (buf.framedesc.width % 2 = 0 → buf.framedesc.height % 2 = 0 →
        buf.framedesc.width * buf.framedesc.height / 4 =
          (buf.framedesc.height / 2) * (buf.framedesc.width / 2) ∧
        buf.framedesc.width * buf.framedesc.height +
            2 * ((buf.framedesc.height / 2) * (buf.framedesc.width / 2)) =
          buf.framedesc.width * buf.framedesc.height * 3 / 2) := by
  have hlt : buf.framedesc.width * buf.framedesc.height < 4294967296 := by omega
  have hle := half_mul_half_le buf.framedesc.width buf.framedesc.height
  refine ⟨convert sz junk fresh buf, enqueued_accepted sz junk fresh buf ctx hacc,
    packed_size_of_lt hwh, rfl, packed_uv_offset_of_lt hlt, by simp [convert, hsz],
    by simp [convert, hsz], ?_, ?_, hle, by omega, ?_⟩
  · intro i k hi hk
    exact convert_luma sz junk fresh buf hlt i k hi hk
  · intro i j hi hj
    exact convert_chroma sz junk fresh buf hlt i j hi hj
  · intro hw hh
    have he := half_mul_half_eq buf.framedesc.width buf.framedesc.height hw hh
    constructor <;> omega

/-- Witness for C3: the frame of the example (width 16, height 16, stride 20,
chroma at 320) is converted into a buffer of 384 bytes with stride 16 and chroma
offset 256. -/
theorem packed_layout_witness :
    ∃ _buf, enqueued 512 junk_block zeros (nv12_frame 16 16 20 320) ready_context = [_buf] ∧
      _buf.framebuf_size = 384 ∧ _buf.framedesc.stride = 16 ∧
      _buf.framedesc.uv_offset = 256 := by
  obtain ⟨b, h1, h2, h3, h4, _⟩ := packed_layout 512 junk_block zeros (nv12_frame 16 16 20 320)
    ready_context (ready_context_accepts 16 16 20 320) (by decide) (by decide)
  exact ⟨b, h1, h2, h3, h4⟩

/-- C3 as stated fails.  For the accepted 3x3 frame the U plane is the single
byte at offset 9, but the V plane starts at `9 + 9 / 4 = 11`, not at
`9 + (3 / 2) * (3 / 2) = 10`; the byte at offset 10 is never stored and is not
the first odd chroma byte.  For the accepted frame of width `2^30` and height
2 the product `width * height * 3` wraps and the converted buffer has `2^30`
bytes, not `width * height * 3 / 2`.  For the accepted 16x16 frame whose
`framesize` is 0, with a structure of 512 bytes, line 256 copies nothing: the
queued descriptor holds what the block held, here width 0 and height 0, not
the 16 and 16 of the source. -/
theorem packed_layout_fails_on_odd_size_and_wrap :
    (accepted (nv12_frame 3 3 3 9) ready_context ∧
      packed_v_offset 3 3 = 11 ∧
      ((3 * 3 + (3 / 2) * (3 / 2) : Nat) : Int) = 10 ∧
      ¬ (∃ _buf, enqueued 512 junk_block zeros (nv12_frame 3 3 3 9) ready_context = [_buf] ∧
          ∀ i j : Nat, i < 3 / 2 → j < 3 / 2 →
            _buf.framebuf ((3 * 3 + (3 / 2) * (3 / 2) + (i * (3 / 2) + j) : Nat) : Int) =
              (nv12_frame 3 3 3 9).framebuf
                (9 + ((i * 3 : Nat) : Int) + 2 * (j : Int) + 1))) ∧
    (accepted (nv12_frame 1073741824 2 1073741824 2147483648) ready_context ∧
      ¬ (∃ _buf, enqueued 512 junk_block zeros (nv12_frame 1073741824 2 1073741824 2147483648)
            ready_context = [_buf] ∧
          _buf.framebuf_size = 1073741824 * 2 * 3 / 2)) ∧
    (accepted short_frame ready_context ∧
      short_frame.framedesc.width = 16 ∧ short_frame.framedesc.height = 16 ∧
      ¬ (∃ _buf, enqueued 512 junk_block zeros short_frame ready_context = [_buf] ∧
          _buf.framedesc.width = 16 ∧ _buf.framedesc.height = 16)) := by
  have hshort : accepted short_frame ready_context := ⟨rfl, _, rfl, rfl⟩
  refine ⟨⟨ready_context_accepts _ _ _ _, by decide, by decide, ?_⟩,
    ⟨ready_context_accepts _ _ _ _, ?_⟩, hshort, rfl, rfl, ?_⟩
  · rintro ⟨b, hb, hv⟩
    have hbe := eq_convert_of_enqueued 512 junk_block zeros _ _ (ready_context_accepts _ _ _ _) b hb
    subst hbe
    have h10 := hv 0 0 (by decide) (by decide)
    have hz := convert_gap 512 junk_block zeros (nv12_frame 3 3 3 9) (by decide) 10 (by decide) (by decide)
    have e : ((3 * 3 + (3 / 2) * (3 / 2) + (0 * (3 / 2) + 0) : Nat) : Int) =
        ((10 : Nat) : Int) := by
      decide
    rw [e, hz] at h10
    revert h10
    simp [nv12_frame, ramp, zeros]
  · rintro ⟨b, hb, hv⟩
    have hbe := eq_convert_of_enqueued 512 junk_block zeros _ _ (ready_context_accepts _ _ _ _) b hb
    subst hbe
    have hsz : (convert 512 junk_block zeros
        (nv12_frame 1073741824 2 1073741824 2147483648)).framebuf_size =
        packed_size 1073741824 2 := rfl
    rw [hsz, packed_size_wrapped] at hv
    omega
  · rintro ⟨b, hb, hw, _⟩
    have hbe := eq_convert_of_enqueued 512 junk_block zeros _ _ hshort b hb
    subst hbe
    have h0 : (convert 512 junk_block zeros short_frame).framedesc.width = 0 := by
      simp [convert, short_frame, nv12_frame, junk_block]
    omega

/-! ## Lemmas about the encoding worker -/

theorem advance_succ (c : Int) (k : Nat) : advance c (k + 1) = wrap_int (advance c k + 1) := rfl

theorem advance_shift (c : Int) (k : Nat) : advance (wrap_int (c + 1)) k = advance c (k + 1) := by
  induction k with
  | zero => rfl
  | succ k ih => rw [advance_succ, ih, advance_succ c (k + 1)]

theorem advance_add (c : Int) (j k : Nat) : advance (advance c j) k = advance c (j + k) := by
  induction k with
  | zero => rfl
  | succ k ih => rw [advance_succ, ih, ← Nat.add_assoc, advance_succ]

/-- Below the largest `int` the counter counts: `k` increments of a counter at
`c` give `c + k`. -/
theorem advance_of_bounds (c : Int) (k : Nat) (hlo : -2147483648 ≤ c)
    (hhi : c + k ≤ 2147483647) : advance c k = c + k := by
  induction k with
  | zero => simp [advance]
  | succ k ih =>
    rw [advance_succ, ih (by omega)]
    unfold wrap_int
    omega

/-- The increment of a counter at the largest `int` gives the smallest. -/
theorem advance_wraps (c : Int) (k : Nat) (hlo : -2147483648 ≤ c)
    (hhi : c + k = 2147483647) : advance c (k + 1) = -2147483648 := by
  rw [advance_succ, advance_of_bounds c k hlo (by omega), hhi]
  rfl

theorem step_encoding_cons (enc : Encoder) (cb : Option Nat) (b : Bool) (w : Worker)
    (f : camera_buffer_t) (rest : List camera_buffer_t)
    (hp : w.phase = .encoding) (hf : w.frames = f :: rest) :
    encoding_thread_step enc cb b w =
      { w with
        frames := rest
        frame_count := wrap_int (w.frame_count + 1)
        calls := w.calls ++ [some (encoder_frame f w.frame_count)]
        sink := w.sink ++ deliver w.fd cb (enc w.calls (some (encoder_frame f w.frame_count)))
        freed := w.freed ++ [f] } := by
  unfold encoding_thread_step
  simp [hp, hf]

theorem step_encoding_wait (enc : Encoder) (cb : Option Nat) (w : Worker)
    (hp : w.phase = .encoding) (hf : w.frames = []) :
    encoding_thread_step enc cb true w = w := by
  unfold encoding_thread_step
  simp [hp, hf]

theorem step_encoding_leave (enc : Encoder) (cb : Option Nat) (w : Worker)
    (hp : w.phase = .encoding) (hf : w.frames = []) :
    encoding_thread_step enc cb false w = { w with phase := .flushing } := by
  unfold encoding_thread_step
  simp [hp, hf]

theorem step_flushing (enc : Encoder) (cb : Option Nat) (b : Bool) (w : Worker)
    (hp : w.phase = .flushing) :
    encoding_thread_step enc cb b w =
      { w with
        frame_count := wrap_int (w.frame_count + 1)
        calls := w.calls ++ [none]
        sink := w.sink ++ deliver w.fd cb (enc w.calls none)
        phase := if (enc w.calls none).got_packet > 0 then .flushing else .exited } := by
  unfold encoding_thread_step
  simp [hp]

theorem step_exited (enc : Encoder) (cb : Option Nat) (b : Bool) (w : Worker)
    (hp : w.phase = .exited) : encoding_thread_step enc cb b w = w := by
  unfold encoding_thread_step
  simp [hp]

theorem numbered_frames_concat (c : Int) (fs : List camera_buffer_t) (f : camera_buffer_t) :
    numbered_frames c (fs ++ [f]) =
      numbered_frames c fs ++ [encoder_frame f (advance c fs.length)] := by
  induction fs generalizing c with
  | nil => simp [numbered_frames, advance]
  | cons g gs ih =>
    show encoder_frame g c :: numbered_frames (wrap_int (c + 1)) (gs ++ [f]) =
      encoder_frame g c :: (numbered_frames (wrap_int (c + 1)) gs ++
        [encoder_frame f (advance c (gs.length + 1))])
    rw [ih, advance_shift]

theorem numbered_frames_length (c : Int) (fs : List camera_buffer_t) :
    (numbered_frames c fs).length = fs.length := by
  induction fs generalizing c with
  | nil => rfl
  | cons g gs ih => simp [numbered_frames, ih]

theorem numbered_frames_buf (c : Int) (fs : List camera_buffer_t) :
    (numbered_frames c fs).map AVFrame.buf = fs := by
  induction fs generalizing c with
  | nil => rfl
  | cons g gs ih => simp [numbered_frames, ih, encoder_frame]

theorem numbered_frames_pts (c : Int) (fs : List camera_buffer_t) :
    (numbered_frames c fs).map AVFrame.pts =
      (List.range fs.length).map (fun (i : Nat) => advance c i) := by
  induction fs using List.reverseRecOn with
  | nil => rfl
  | append_singleton gs g ih =>
    simp [numbered_frames_concat, ih, List.range_succ, encoder_frame]

/-- Below the largest `int` the frames are numbered `c, c + 1, ...`. -/
theorem numbered_frames_pts_of_bounds (c : Int) (fs : List camera_buffer_t)
    (hlo : -2147483648 ≤ c) (hhi : c + fs.length ≤ 2147483648) :
    (numbered_frames c fs).map AVFrame.pts =
      (List.range fs.length).map (fun (i : Nat) => c + (i : Int)) := by
  rw [numbered_frames_pts]
  apply List.map_congr_left
  intro i hi
  rw [List.mem_range] at hi
  exact advance_of_bounds c i hlo (by omega)

theorem input_calls_numbered (c : Int) (fs : List camera_buffer_t) (flushes : Nat) :
    List.filterMap id ((numbered_frames c fs).map some ++ List.replicate flushes none) =
      numbered_frames c fs := by
  rw [List.filterMap_append, List.filterMap_replicate_of_none rfl, List.append_nil,
    List.filterMap_map]
  simp

/-- The first `k` passes over a queue of at least `k` frames: frame `i` is
dequeued in pass `i`, numbered with the counter after `i` increments and
released. -/
theorem run_dequeues (enc : Encoder) (cb : Option Nat) (running_at : Nat → Bool) (w : Worker)
    (hp : w.phase = .encoding) (k : Nat) (hk : k ≤ w.frames.length) :
    (encoding_thread_run enc cb running_at k w).phase = .encoding ∧
    (encoding_thread_run enc cb running_at k w).frames = w.frames.drop k ∧
    (encoding_thread_run enc cb running_at k w).frame_count = advance w.frame_count k ∧
    (encoding_thread_run enc cb running_at k w).calls =
      w.calls ++ (numbered_frames w.frame_count (w.frames.take k)).map some ∧
    (encoding_thread_run enc cb running_at k w).freed = w.freed ++ w.frames.take k := by
  induction k with
  | zero => simp [encoding_thread_run, numbered_frames, hp, advance]
  | succ k ih =>
    obtain ⟨h1, h2, h3, h4, h5⟩ := ih (by omega)
    have hlt : k < w.frames.length := by omega
    have hd := List.drop_eq_getElem_cons hlt
    have ht := (List.take_concat_get w.frames k hlt).symm
    rw [List.concat_eq_append] at ht
    have hlen : (w.frames.take k).length = k := by
      rw [List.length_take]
      omega
    simp only [encoding_thread_run]
    rw [step_encoding_cons enc cb _ _ _ _ h1 (h2.trans hd)]
    refine ⟨h1, rfl, ?_, ?_, ?_⟩
    · show wrap_int (_ + 1) = _
      rw [h3]
      rfl
    · show _ ++ [_] = _
      rw [h4, h3, ht, numbered_frames_concat, hlen, List.map_append, List.append_assoc]
      rfl
    · show _ ++ [_] = _
      rw [h5, ht, List.append_assoc]

/-- Once the local queue is empty the worker makes no further call with an
input frame, whatever the running flag does. -/
theorem step_drained (enc : Encoder) (cb : Option Nat) (b : Bool) (w : Worker)
    (hf : w.frames = []) :
    (encoding_thread_step enc cb b w).frames = [] ∧
    input_calls (encoding_thread_step enc cb b w) = input_calls w := by
  cases hp : w.phase with
  | encoding =>
    cases b with
    | true => rw [step_encoding_wait enc cb w hp hf]; exact ⟨hf, rfl⟩
    | false => rw [step_encoding_leave enc cb w hp hf]; exact ⟨hf, rfl⟩
  | flushing =>
    rw [step_flushing enc cb b w hp]
    refine ⟨hf, ?_⟩
    simp [input_calls, List.filterMap_append]
  | exited => rw [step_exited enc cb b w hp]; exact ⟨hf, rfl⟩

theorem run_drained (enc : Encoder) (cb : Option Nat) (running_at : Nat → Bool) (w : Worker)
    (k : Nat) (hf : (encoding_thread_run enc cb running_at k w).frames = []) (m : Nat) :
    (encoding_thread_run enc cb running_at (k + m) w).frames = [] ∧
    input_calls (encoding_thread_run enc cb running_at (k + m) w) =
      input_calls (encoding_thread_run enc cb running_at k w) := by
  induction m with
  | zero => exact ⟨hf, rfl⟩
  | succ m ih =>
    obtain ⟨h1, h2⟩ := ih
    have hs := step_drained enc cb (running_at (k + m))
      (encoding_thread_run enc cb running_at (k + m) w) h1
    exact ⟨hs.1, hs.2.trans h2⟩

/-- While the local queue is empty and the running flag reads `true`, the
worker waits: its state does not change. -/
theorem run_wait (enc : Encoder) (cb : Option Nat) (running_at : Nat → Bool) (w : Worker)
    (k t0 : Nat) (hp : (encoding_thread_run enc cb running_at k w).phase = .encoding)
    (hf : (encoding_thread_run enc cb running_at k w).frames = [])
    (hwait : ∀ t, k ≤ t → t < t0 → running_at t = true) (m : Nat) (hm : k + m ≤ t0) :
    encoding_thread_run enc cb running_at (k + m) w = encoding_thread_run enc cb running_at k w := by
  induction m with
  | zero => rfl
  | succ m ih =>
    have h := ih (by omega)
    show encoding_thread_step enc cb (running_at (k + m))
      (encoding_thread_run enc cb running_at (k + m) w) = _
    rw [h, hwait (k + m) (by omega) (by omega)]
    exact step_encoding_wait enc cb _ hp hf

/-- As long as the encoder reports a packet, each pass of the flush loop makes
one call without input and advances the counter by one. -/
theorem run_flushing (enc : Encoder) (cb : Option Nat) (running_at : Nat → Bool) (w : Worker)
    (k K : Nat) (hp : (encoding_thread_run enc cb running_at k w).phase = .flushing)
    (hpk : ∀ j, j < K →
      (enc ((encoding_thread_run enc cb running_at k w).calls ++ List.replicate j none)
        none).got_packet > 0)
    (j : Nat) (hj : j ≤ K) :
    (encoding_thread_run enc cb running_at (k + j) w).phase = .flushing ∧
    (encoding_thread_run enc cb running_at (k + j) w).calls =
      (encoding_thread_run enc cb running_at k w).calls ++ List.replicate j none ∧
    (encoding_thread_run enc cb running_at (k + j) w).frame_count =
      advance (encoding_thread_run enc cb running_at k w).frame_count j ∧
    (encoding_thread_run enc cb running_at (k + j) w).frames =
      (encoding_thread_run enc cb running_at k w).frames ∧
    (encoding_thread_run enc cb running_at (k + j) w).freed =
      (encoding_thread_run enc cb running_at k w).freed := by
  induction j with
  | zero => simp [hp, advance]
  | succ j ih =>
    obtain ⟨h1, h2, h3, h4, h5⟩ := ih (by omega)
    have hg := hpk j (by omega)
    show (encoding_thread_step enc cb (running_at (k + j))
        (encoding_thread_run enc cb running_at (k + j) w)).phase = _ ∧
      (encoding_thread_step enc cb (running_at (k + j))
        (encoding_thread_run enc cb running_at (k + j) w)).calls = _ ∧
      (encoding_thread_step enc cb (running_at (k + j))
        (encoding_thread_run enc cb running_at (k + j) w)).frame_count = _ ∧
      (encoding_thread_step enc cb (running_at (k + j))
        (encoding_thread_run enc cb running_at (k + j) w)).frames = _ ∧
      (encoding_thread_step enc cb (running_at (k + j))
        (encoding_thread_run enc cb running_at (k + j) w)).freed = _
    rw [step_flushing enc cb _ _ h1]
    refine ⟨?_, ?_, ?_, h4, h5⟩
    · show (if _ then Phase.flushing else Phase.exited) = _
      rw [h2, if_pos hg]
    · show _ ++ [none] = _
      rw [h2, List.replicate_succ', List.append_assoc]
    · show wrap_int (_ + 1) = _
      rw [h3]
      rfl

/-- A worker that has returned stays as it is. -/
theorem run_exited (enc : Encoder) (cb : Option Nat) (running_at : Nat → Bool) (w : Worker)
    (k : Nat) (hp : (encoding_thread_run enc cb running_at k w).phase = .exited) (m : Nat) :
    encoding_thread_run enc cb running_at (k + m) w = encoding_thread_run enc cb running_at k w := by
  induction m with
  | zero => rfl
  | succ m ih =>
    show encoding_thread_step enc cb (running_at (k + m))
      (encoding_thread_run enc cb running_at (k + m) w) = _
    rw [ih]
    exact step_exited enc cb _ _ hp

/-! ## C4: FIFO order and dense presentation indices -/

/-- Once the worker has made as many passes as the queue held frames, the
encoder calls that carried an input frame are the queued frames in queue order,
each numbered with the counter value at its turn; later passes add none. -/
theorem input_calls_after_run (enc : Encoder) (cb : Option Nat) (running_at : Nat → Bool)
    (ctx : ffcamera_context) (r : ffcamera_reserved) (n : Nat) (hn : r.frames.length ≤ n) :
    input_calls (encoding_thread_run enc cb running_at n (encoding_thread_begin ctx r)) =
      numbered_frames r.frame_count r.frames := by
  obtain ⟨_, h2, _, h4, _⟩ := run_dequeues enc cb running_at (encoding_thread_begin ctx r) rfl
    r.frames.length (Nat.le_refl _)
  have hf : (encoding_thread_run enc cb running_at r.frames.length
      (encoding_thread_begin ctx r)).frames = [] := by
    rw [h2]
    exact List.drop_length _
  have hi : input_calls (encoding_thread_run enc cb running_at r.frames.length
      (encoding_thread_begin ctx r)) = numbered_frames r.frame_count r.frames := by
    unfold input_calls
    rw [h4]
    show List.filterMap id ([] ++ (numbered_frames r.frame_count (r.frames.take _)).map some) = _
    rw [List.take_length, List.nil_append, List.filterMap_map]
    simp
  obtain ⟨m, rfl⟩ := Nat.exists_eq_add_of_le hn
  have hd := (run_drained enc cb running_at (encoding_thread_begin ctx r) r.frames.length hf m).2
  rw [hd, hi]

/-- C4 (as amended): for every worker run whose queue holds `N <= 2^31` frames
`r.frames` (in push order) with the frame counter at 0, for every encoder,
every sink configuration and every behaviour of the running flag, once the
worker has made at least as many passes as there are frames, the encoder calls
that carried an input frame are exactly the queued frames in queue order, and
the `i`-th of them carries presentation index `i`: the indices are `0 .. N-1`
without gap or repeat. -/
theorem fifo_dense_pts (enc : Encoder) (cb : Option Nat) (running_at : Nat → Bool)
    (ctx : ffcamera_context) (r : ffcamera_reserved) (hc : r.frame_count = 0)
    (hN : r.frames.length ≤ 2147483648) (n : Nat) (hn : r.frames.length ≤ n) :
    input_calls (encoding_thread_run enc cb running_at n (encoding_thread_begin ctx r)) =
      numbered_frames 0 r.frames ∧
    (input_calls (encoding_thread_run enc cb running_at n (encoding_thread_begin ctx r))).map
      AVFrame.buf = r.frames ∧
    (input_calls (encoding_thread_run enc cb running_at n (encoding_thread_begin ctx r))).map
      AVFrame.pts = (List.range r.frames.length).map (fun i => (i : Int)) := by
  rw [input_calls_after_run enc cb running_at ctx r n hn, hc]
  refine ⟨rfl, numbered_frames_buf 0 r.frames, ?_⟩
  rw [numbered_frames_pts_of_bounds 0 r.frames (by decide) (by omega)]
  simp [List.map_eq_flatMap]

/-- Witness for C4: three queued frames, an encoder that emits a packet per
frame, the running flag cleared after four passes, ten passes of the worker. -/
theorem fifo_dense_pts_witness :
    input_calls (encoding_thread_run buffering_encoder none stop_after_four 10
        (encoding_thread_begin ready_context three_queued)) =
      numbered_frames 0 three_queued.frames ∧
    (input_calls (encoding_thread_run buffering_encoder none stop_after_four 10
        (encoding_thread_begin ready_context three_queued))).map AVFrame.buf =
      three_queued.frames ∧
    (input_calls (encoding_thread_run buffering_encoder none stop_after_four 10
        (encoding_thread_begin ready_context three_queued))).map AVFrame.pts =
      (List.range three_queued.frames.length).map (fun i => (i : Int)) :=
  fifo_dense_pts buffering_encoder none stop_after_four ready_context three_queued rfl
    (by decide) 10 (by decide)

/-- C4 as stated fails.  With `2^31 + 1` frames queued and the counter at 0 the
worker numbers the frames `0, 1, ..., 2^31 - 1`; the increment that follows
takes the `int` counter from the largest value to the smallest, so the encoder
call for the frame at position `2^31` carries presentation index `-2^31`, not
`2^31`. -/
theorem fifo_dense_pts_fails_on_overflow :
    many_queued.frame_count = 0 ∧ many_queued.frames.length = 2147483648 + 1 ∧
    ((input_calls (encoding_thread_run silent_encoder none stop_after_four (2147483648 + 1)
        (encoding_thread_begin ready_context many_queued))).map AVFrame.pts)[2147483648]? =
      some (-2147483648) := by
  have hlen : many_queued.frames.length = 2147483648 + 1 := List.length_replicate _ _
  refine ⟨rfl, hlen, ?_⟩
  rw [input_calls_after_run silent_encoder none stop_after_four ready_context many_queued
    (2147483648 + 1) (le_of_eq hlen), numbered_frames_pts, List.getElem?_map, hlen,
    List.getElem?_range (Nat.lt_succ_self 2147483648)]
  show some (advance 0 (2147483647 + 1)) = _
  rw [advance_wraps 0 2147483647 (by decide) (by decide)]

/-! ## C5: `ffcamera_stop` -/

/-- C5 (the code at the failing input): on a context whose running flag is set,
such as the one `ffcamera_init` produces, `ffcamera_stop` returns
`FFCAMERA_ALREADY_STOPPED`, leaves the flag set and signals nothing; on a context
whose running flag is clear it returns `FFCAMERA_OK` and signals the condition.
The test of line 121 is the negation of what the claim describes. -/
theorem ffcamera_stop_test_inverted (ctx : ffcamera_context) (r : ffcamera_reserved) :
    ffcamera_stop ready_context = (.FFCAMERA_ALREADY_STOPPED, ready_context, []) ∧
    ffcamera_stop { ctx with reserved := some { r with running := true } } =
      (.FFCAMERA_ALREADY_STOPPED, { ctx with reserved := some { r with running := true } }, []) ∧
    ffcamera_stop { ctx with reserved := some { r with running := false } } =
      (.FFCAMERA_OK, { ctx with reserved := some { r with running := false } },
        [.pthread_cond_signal]) :=
  ⟨rfl, rfl, rfl⟩

/-! ## C6: first `ffcamera_start` after `ffcamera_init` -/

/-- C6 (the code at the failing input): on the context `ffcamera_init` produces,
with any encoder then configured, the first `ffcamera_start` returns
`FFCAMERA_ALREADY_RUNNING`, spawns no worker and changes nothing, because line 41
sets the running flag. -/
theorem ffcamera_start_after_init (ctx : ffcamera_context) (codec : Nat) :
    ffcamera_start { ffcamera_init ctx with codec_context := some codec } =
      (.FFCAMERA_ALREADY_RUNNING, { ffcamera_init ctx with codec_context := some codec }, []) ∧
    ffcamera_start ready_context = (.FFCAMERA_ALREADY_RUNNING, ready_context, []) :=
  ⟨rfl, rfl⟩

/-! ## C7: `ffcamera_start` without encoder -/

/-- C7: on every context with pipeline state `r` whose running flag is clear and
whose `codec_context` is null, `ffcamera_start` returns
`FFCAMERA_NO_CODEC_SPECIFIED`, has no effect (no worker is spawned) and leaves the
context, hence running flag, frame counter and queue, unchanged. -/
theorem ffcamera_start_no_codec (ctx : ffcamera_context) (r : ffcamera_reserved)
    (hr : ctx.reserved = some r) (hrun : r.running = false)
    (hc : ctx.codec_context = none) :
    ffcamera_start ctx = (.FFCAMERA_NO_CODEC_SPECIFIED, ctx, []) := by
  unfold ffcamera_start
  simp [hr, hrun, hc]

/-- Witness for C7: the stopped pipeline `idle_context`. -/
theorem ffcamera_start_no_codec_witness :
    ffcamera_start idle_context = (.FFCAMERA_NO_CODEC_SPECIFIED, idle_context, []) :=
  ffcamera_start_no_codec idle_context _ rfl rfl rfl

/-! ## C8: `ffcamera_start` on a running pipeline -/

/-- C8: on every context with pipeline state `r` whose running flag is set,
with or without an encoder, `ffcamera_start` returns `FFCAMERA_ALREADY_RUNNING`,
has no effect (no second worker is spawned) and leaves the context unchanged:
running flag, frame counter and queue are as before, the counter is not
reset. -/
theorem ffcamera_start_already_running (ctx : ffcamera_context) (r : ffcamera_reserved)
    (hr : ctx.reserved = some r) (hrun : r.running = true) :
    ffcamera_start ctx = (.FFCAMERA_ALREADY_RUNNING, ctx, []) ∧
    (ffcamera_start ctx).2.1.reserved = some r := by
  unfold ffcamera_start
  simp [hr, hrun]

/-- Witness for C8: the running pipeline `running_context`, whose counter
stands at 5. -/
theorem ffcamera_start_already_running_witness :
    ffcamera_start running_context = (.FFCAMERA_ALREADY_RUNNING, running_context, []) ∧
    (ffcamera_start running_context).2.1.reserved =
      some { running := true, frame_count := 5,
             frames := [convert 512 junk_block zeros (nv12_frame 16 16 20 320)] } :=
  ffcamera_start_already_running running_context _ rfl rfl

/-! ## C9: drain on stop across the hand-off -/

/-- C9 (the code at the failing input): the worker is started on a running
pipeline with an empty queue, then `ffcamera_vfcallback` accepts one NV12 frame,
then the running flag is cleared.  The frame is in the queue of the pipeline
state, but the worker iterates over the copy of the deque it made at line 149:
it makes no encoder call with an input frame, however long it runs, and with an
encoder that has nothing buffered it makes one flush call and returns. -/
theorem worker_misses_frames_pushed_after_start (enc : Encoder) (n : Nat) :
    (∃ r0, ready_context.reserved = some r0 ∧ r0.running = true ∧ r0.frames = [] ∧
      (∃ r1, (ffcamera_vfcallback 512 junk_block zeros (nv12_frame 16 16 20 320) ready_context).1.reserved =
          some r1 ∧ r1.frames = [convert 512 junk_block zeros (nv12_frame 16 16 20 320)]) ∧
      input_calls (encoding_thread_run enc none (fun _ => false) n
        (encoding_thread_begin ready_context r0)) = [] ∧
      (encoding_thread_run silent_encoder none (fun _ => false) 2
        (encoding_thread_begin ready_context r0)).phase = .exited ∧
      (encoding_thread_run silent_encoder none (fun _ => false) 2
        (encoding_thread_begin ready_context r0)).calls = [none]) := by
  refine ⟨_, rfl, rfl, rfl, ⟨_, rfl, rfl⟩, ?_, rfl, rfl⟩
  have h := (run_drained enc none (fun _ => false)
    (encoding_thread_begin ready_context
      { frame_count := 0, running := true, frames := [] }) 0 rfl n).2
  rw [Nat.zero_add] at h
  exact h

/-! ## C10: flush loop and frame counter -/

/-- A worker starts with `N` queued frames and counter value `c`.  It dequeues
the `N` frames in its first `N` passes, waits while the running flag reads
`true`, and reads the flag clear in pass `t0`.  If the encoder reports a packet
on each of the first `K` calls without input and none on the next, then after
`t0 + K + 2` passes (and after any larger number) the worker has returned; its
calls are the `N` calls with the queued frames followed by exactly `K + 1`
calls without input; every queued frame has been released; and the counter has
been incremented `N + K + 1` times. -/
theorem run_to_exit (enc : Encoder) (cb : Option Nat) (running_at : Nat → Bool)
    (ctx : ffcamera_context) (r : ffcamera_reserved) (K t0 : Nat)
    (ht0 : r.frames.length ≤ t0)
    (hwait : ∀ t, r.frames.length ≤ t → t < t0 → running_at t = true)
    (hstop : running_at t0 = false)
    (hpk : ∀ j, j < K →
      (enc ((numbered_frames r.frame_count r.frames).map some ++ List.replicate j none)
        none).got_packet > 0)
    (hend :
      (enc ((numbered_frames r.frame_count r.frames).map some ++ List.replicate K none)
        none).got_packet ≤ 0)
    (n : Nat) (hn : t0 + K + 2 ≤ n) :
    (encoding_thread_run enc cb running_at n (encoding_thread_begin ctx r)).phase = .exited ∧
    (encoding_thread_run enc cb running_at n (encoding_thread_begin ctx r)).calls =
      (numbered_frames r.frame_count r.frames).map some ++ List.replicate (K + 1) none ∧
    (encoding_thread_run enc cb running_at n (encoding_thread_begin ctx r)).frame_count =
      advance r.frame_count (r.frames.length + K + 1) ∧
    (encoding_thread_run enc cb running_at n (encoding_thread_begin ctx r)).frames = [] ∧
    (encoding_thread_run enc cb running_at n (encoding_thread_begin ctx r)).freed = r.frames := by
  -- the first `N` passes dequeue the frames
  obtain ⟨a1, a2, a3, a4, a5⟩ := run_dequeues enc cb running_at (encoding_thread_begin ctx r) rfl
    r.frames.length (Nat.le_refl _)
  have b2 : (encoding_thread_run enc cb running_at r.frames.length
      (encoding_thread_begin ctx r)).frames = [] := a2.trans (List.drop_length r.frames)
  have b3 : (encoding_thread_run enc cb running_at r.frames.length
      (encoding_thread_begin ctx r)).frame_count = advance r.frame_count r.frames.length := a3
  have b4 : (encoding_thread_run enc cb running_at r.frames.length
      (encoding_thread_begin ctx r)).calls = (numbered_frames r.frame_count r.frames).map some := by
    rw [a4]
    show [] ++ (numbered_frames r.frame_count (r.frames.take r.frames.length)).map some = _
    rw [List.take_length, List.nil_append]
  have b5 : (encoding_thread_run enc cb running_at r.frames.length
      (encoding_thread_begin ctx r)).freed = r.frames := by
    rw [a5]
    show [] ++ r.frames.take r.frames.length = _
    rw [List.take_length, List.nil_append]
  clear a2 a3 a4 a5
  -- the worker waits until pass `t0`
  obtain ⟨m, hm⟩ := Nat.exists_eq_add_of_le ht0
  have hw := run_wait enc cb running_at (encoding_thread_begin ctx r) r.frames.length t0 a1 b2
    hwait m (by omega)
  rw [← hm] at hw
  -- pass `t0` leaves the `while` loop
  have hs : encoding_thread_run enc cb running_at (t0 + 1) (encoding_thread_begin ctx r) =
      { encoding_thread_run enc cb running_at r.frames.length (encoding_thread_begin ctx r) with
        phase := .flushing } := by
    show encoding_thread_step enc cb (running_at t0)
      (encoding_thread_run enc cb running_at t0 (encoding_thread_begin ctx r)) = _
    rw [hw, hstop]
    exact step_encoding_leave enc cb _ a1 b2
  have c1 : (encoding_thread_run enc cb running_at (t0 + 1)
      (encoding_thread_begin ctx r)).calls =
      (numbered_frames r.frame_count r.frames).map some := by
    rw [hs]
    exact b4
  have c2 : (encoding_thread_run enc cb running_at (t0 + 1)
      (encoding_thread_begin ctx r)).frame_count = advance r.frame_count r.frames.length := by
    rw [hs]
    exact b3
  have c3 : (encoding_thread_run enc cb running_at (t0 + 1)
      (encoding_thread_begin ctx r)).frames = [] := by
    rw [hs]
    exact b2
  have c4 : (encoding_thread_run enc cb running_at (t0 + 1)
      (encoding_thread_begin ctx r)).freed = r.frames := by
    rw [hs]
    exact b5
  have c5 : (encoding_thread_run enc cb running_at (t0 + 1)
      (encoding_thread_begin ctx r)).phase = .flushing := by
    rw [hs]
  -- `K` flush passes with a packet
  obtain ⟨f1, f2, f3, f4, f5⟩ := run_flushing enc cb running_at (encoding_thread_begin ctx r)
    (t0 + 1) K c5 (by rw [c1]; exact hpk) K (Nat.le_refl _)
  rw [c1] at f2
  rw [c2] at f3
  rw [c3] at f4
  rw [c4] at f5
  -- the last flush pass
  have hl : encoding_thread_run enc cb running_at (t0 + 1 + K + 1)
      (encoding_thread_begin ctx r) =
      encoding_thread_step enc cb (running_at (t0 + 1 + K))
        (encoding_thread_run enc cb running_at (t0 + 1 + K) (encoding_thread_begin ctx r)) := rfl
  rw [step_flushing enc cb _ _ f1, f2] at hl
  have e1 : (encoding_thread_run enc cb running_at (t0 + 1 + K + 1)
      (encoding_thread_begin ctx r)).phase = .exited := by
    rw [hl]
    show (if _ then Phase.flushing else Phase.exited) = _
    rw [if_neg (by omega)]
  -- nothing happens afterwards
  obtain ⟨m2, hm2⟩ := Nat.exists_eq_add_of_le hn
  have hx := run_exited enc cb running_at (encoding_thread_begin ctx r) (t0 + 1 + K + 1) e1 m2
  have en : n = t0 + 1 + K + 1 + m2 := by omega
  rw [en, hx]
  refine ⟨e1, ?_, ?_, ?_, ?_⟩
  · rw [hl]
    show _ ++ [none] = _
    rw [List.replicate_succ', List.append_assoc]
  · rw [hl]
    show wrap_int (_ + 1) = _
    rw [f3, advance_add]
    rfl
  · rw [hl]
    exact f4
  · rw [hl]
    exact f5

/-- C10 (as amended): a worker starts with `N` queued frames and a counter
value `c` of the `int` range such that `c + N + K + 1` does not exceed the
largest `int`.  It dequeues the `N` frames in its first `N` passes, waits while
the running flag reads `true`, and reads the flag clear in pass `t0`.  If the
encoder reports a packet on each of the first `K` calls without input and none
on the next, then after `t0 + K + 2` passes (and after any larger number) the
worker has returned; its calls are the `N` calls with the queued frames
followed by exactly `K + 1` calls without input; every queued frame has been
released; and the counter stands at `c + N + K + 1`. -/
theorem flush_loop_counter (enc : Encoder) (cb : Option Nat) (running_at : Nat → Bool)
    (ctx : ffcamera_context) (r : ffcamera_reserved) (K t0 : Nat)
    (hlo : -2147483648 ≤ r.frame_count)
    (hhi : r.frame_count + r.frames.length + K + 1 ≤ 2147483647)
    (ht0 : r.frames.length ≤ t0)
    (hwait : ∀ t, r.frames.length ≤ t → t < t0 → running_at t = true)
    (hstop : running_at t0 = false)
    (hpk : ∀ j, j < K →
      (enc ((numbered_frames r.frame_count r.frames).map some ++ List.replicate j none)
        none).got_packet > 0)
    (hend :
      (enc ((numbered_frames r.frame_count r.frames).map some ++ List.replicate K none)
        none).got_packet ≤ 0)
    (n : Nat) (hn : t0 + K + 2 ≤ n) :
    (encoding_thread_run enc cb running_at n (encoding_thread_begin ctx r)).phase = .exited ∧
    (encoding_thread_run enc cb running_at n (encoding_thread_begin ctx r)).calls =
      (numbered_frames r.frame_count r.frames).map some ++ List.replicate (K + 1) none ∧
    (encoding_thread_run enc cb running_at n (encoding_thread_begin ctx r)).frame_count =
      r.frame_count + r.frames.length + K + 1 ∧
    (encoding_thread_run enc cb running_at n (encoding_thread_begin ctx r)).frames = [] ∧
    (encoding_thread_run enc cb running_at n (encoding_thread_begin ctx r)).freed = r.frames := by
  obtain ⟨h1, h2, h3, h4, h5⟩ :=
    run_to_exit enc cb running_at ctx r K t0 ht0 hwait hstop hpk hend n hn
  refine ⟨h1, h2, ?_, h4, h5⟩
  rw [h3, advance_of_bounds _ _ hlo (by push_cast; omega)]
  push_cast
  ring

/-- Witness for C10: three queued frames, counter at 0, the running flag read
clear in pass 4, and an encoder with two buffered packets (`K = 2`): after
eight passes the worker has returned and the counter stands at
`0 + 3 + 2 + 1 = 6`. -/
theorem flush_loop_counter_witness :
    (encoding_thread_run buffering_encoder none stop_after_four 8
      (encoding_thread_begin ready_context three_queued)).phase = .exited ∧
    (encoding_thread_run buffering_encoder none stop_after_four 8
      (encoding_thread_begin ready_context three_queued)).calls =
      (numbered_frames three_queued.frame_count three_queued.frames).map some ++
        List.replicate (2 + 1) none ∧
    (encoding_thread_run buffering_encoder none stop_after_four 8
      (encoding_thread_begin ready_context three_queued)).frame_count =
      three_queued.frame_count + three_queued.frames.length + 2 + 1 ∧
    (encoding_thread_run buffering_encoder none stop_after_four 8
      (encoding_thread_begin ready_context three_queued)).frames = [] ∧
    (encoding_thread_run buffering_encoder none stop_after_four 8
      (encoding_thread_begin ready_context three_queued)).freed = three_queued.frames :=
  flush_loop_counter buffering_encoder none stop_after_four ready_context three_queued 2 4
    (by decide) (by decide) (by decide)
    (by
      intro t h1 h2
      have h3 : t = 3 := by
        have : three_queued.frames.length = 3 := rfl
        omega
      subst h3
      rfl)
    rfl
    (by
      intro j hj
      have hlen : ((numbered_frames three_queued.frame_count three_queued.frames).map some ++
          List.replicate j none).length = 3 + j := by
        simp [numbered_frames_length, three_queued]
      simp only [buffering_encoder, hlen]
      rw [if_pos (by omega)]
      decide)
    (by
      have hlen : ((numbered_frames three_queued.frame_count three_queued.frames).map some ++
          List.replicate 2 none).length = 5 := by
        simp [numbered_frames_length, three_queued]
      simp only [buffering_encoder, hlen]
      decide)
    8 (by decide)

/-- C10 as stated fails.  With three frames queued, the counter at
`2147483646`, the running flag read clear in pass 4 and an encoder that never
reports a packet (`K = 0`), the worker has returned after six passes, having
made the three calls with a frame and one call without input; the second
increment took the `int` counter from the largest value to the smallest, and it
stands at `-2147483646`, not at `2147483646 + 3 + 0 + 1 = 2147483650`. -/
theorem flush_loop_counter_fails_on_overflow :
    three_queued_late.frame_count = 2147483646 ∧ three_queued_late.frames.length = 3 ∧
    (encoding_thread_run silent_encoder none stop_after_four 6
      (encoding_thread_begin ready_context three_queued_late)).phase = .exited ∧
    (encoding_thread_run silent_encoder none stop_after_four 6
      (encoding_thread_begin ready_context three_queued_late)).calls =
      (numbered_frames three_queued_late.frame_count three_queued_late.frames).map some ++
        List.replicate (0 + 1) none ∧
    (encoding_thread_run silent_encoder none stop_after_four 6
      (encoding_thread_begin ready_context three_queued_late)).frame_count = -2147483646 := by
  obtain ⟨h1, h2, h3, _, _⟩ := run_to_exit silent_encoder none stop_after_four ready_context
    three_queued_late 0 4 (by decide)
    (by
      intro t h1 h2
      have h3 : t = 3 := by
        have : three_queued_late.frames.length = 3 := rfl
        omega
      subst h3
      rfl)
    rfl
    (by
      intro j hj
      omega)
    (Int.le_refl 0) 6 (by decide)
  refine ⟨rfl, rfl, h1, h2, ?_⟩
  rw [h3]
  decide

/-! ## Lemmas about `write_all` -/

/-- A call with a negative return value in a log whose calls but the last
returned non-negative values is the last call of the log. -/
theorem neg_call_is_last (l : List WriteCall) (x : WriteCall) (h : ∀ c ∈ l, 0 ≤ c.ret)
    (init : List WriteCall) (c : WriteCall) (rest : List WriteCall)
    (he : l ++ [x] = init ++ c :: rest) (hc : c.ret < 0) : rest = [] ∧ c = x := by
  rcases List.eq_nil_or_concat rest with hr | ⟨rest1, y, hr⟩
  · subst hr
    have h2 := (List.append_inj' he (by simp)).2
    simp only [List.cons.injEq, and_true] at h2
    exact ⟨rfl, h2.symm⟩
  · exfalso
    subst hr
    have he2 : l ++ [x] = (init ++ c :: rest1) ++ [y] := by
      rw [he, List.concat_eq_append, List.append_assoc]
      rfl
    have h1 := (List.append_inj' he2 (by simp)).1
    have hm : c ∈ l := by
      rw [h1]
      simp
    have := h c hm
    omega

/-- In every run of the loop, a call that returned a negative value is the last
call, and its value is what the loop returns. -/
theorem write_all_loop_negative (write : Writer) (fd size : Int) (fuel : Nat) (i : Int)
    (calls : List WriteCall) (h : ∀ c ∈ calls, 0 ≤ c.ret)
    (init : List WriteCall) (c : WriteCall) (rest : List WriteCall)
    (he : (write_all_loop write fd size fuel i calls).2 = init ++ c :: rest)
    (hc : c.ret < 0) :
    rest = [] ∧ (write_all_loop write fd size fuel i calls).1 = some c.ret := by
  induction fuel generalizing i calls with
  | zero =>
    exfalso
    simp only [write_all_loop] at he
    have hm : c ∈ calls := by
      rw [he]
      simp
    have := h c hm
    omega
  | succ fuel ih =>
    simp only [write_all_loop] at he ⊢
    split_ifs at he ⊢ with h1 h2
    · obtain ⟨hr, hx⟩ := neg_call_is_last calls _ h init c rest he hc
      subst hx
      exact ⟨hr, rfl⟩
    · refine ih (i + write calls fd i (size - i)) _ ?_ he
      intro c1 hc1
      rcases List.mem_append.1 hc1 with hm | hm
      · exact h c1 hm
      · simp only [List.mem_singleton] at hm
        subst hm
        show 0 ≤ write calls fd i (size - i)
        omega
    · exfalso
      obtain ⟨_, hx⟩ := neg_call_is_last calls _ h init c rest he hc
      subst hx
      simp only at hc
      omega

/-- When every call writes at least one byte and at most what it was asked for,
the loop started at `i < size` with enough fuel returns `size`; its calls are
back to back from `i` and write the bytes `i .. size - 1` in order. -/
theorem write_all_loop_complete (write : Writer) (fd size : Int) (buf : Mem)
    (hw : ∀ calls off cnt, 0 ≤ off → 0 < cnt → off + cnt = size →
      0 < write calls fd off cnt ∧ write calls fd off cnt ≤ cnt)
    (fuel : Nat) (i : Int) (calls : List WriteCall)
    (hi : 0 ≤ i) (hlt : i < size) (hf : (size - i).toNat ≤ fuel) :
    (write_all_loop write fd size fuel i calls).1 = some size ∧
    ∃ new, (write_all_loop write fd size fuel i calls).2 = calls ++ new ∧
      back_to_back i new ∧
      written_bytes buf new =
        (List.range (size - i).toNat).map (fun (k : Nat) => buf (i + (k : Int))) ∧
      ∀ c ∈ new, c.fd = fd ∧ c.count = size - c.offset ∧ 0 < c.ret ∧ c.ret ≤ c.count := by
  induction fuel generalizing i calls with
  | zero => omega
  | succ fuel ih =>
    obtain ⟨hj1, hj2⟩ := hw calls i (size - i) hi (by omega) (by omega)
    simp only [write_all_loop]
    rw [if_neg (by omega)]
    by_cases h2 : i + write calls fd i (size - i) < size
    · rw [if_pos h2]
      obtain ⟨r1, new, e, b, wb, hc⟩ := ih (i + write calls fd i (size - i))
        (calls ++ [{ fd := fd, offset := i, count := size - i,
                     ret := write calls fd i (size - i) }])
        (by omega) h2 (by omega)
      refine ⟨r1, _ :: new, by rw [e, List.append_assoc]; rfl, ⟨rfl, b⟩, ?_, ?_⟩
      · have hsplit : (size - i).toNat = (write calls fd i (size - i)).toNat +
            (size - (i + write calls fd i (size - i))).toNat := by omega
        have hcast : (((write calls fd i (size - i)).toNat : Nat) : Int) =
            write calls fd i (size - i) := Int.toNat_of_nonneg (by omega)
        rw [hsplit, List.range_add, List.map_append, List.map_map]
        show written buf _ ++ written_bytes buf new = _
        rw [wb]
        congr 1
        apply List.map_congr_left
        intro k _
        show buf _ = buf _
        congr 1
        push_cast
        rw [hcast]
        ring
      · intro c hm
        rcases List.mem_cons.1 hm with hm | hm
        · subst hm
          exact ⟨rfl, rfl, hj1, hj2⟩
        · exact hc c hm
    · rw [if_neg h2]
      have he : i + write calls fd i (size - i) = size := by omega
      refine ⟨by rw [he], [_], rfl, ⟨rfl, trivial⟩, ?_, ?_⟩
      · have hr : write calls fd i (size - i) = size - i := by omega
        show written buf _ ++ [] = _
        rw [List.append_nil]
        show List.map _ (List.range (write calls fd i (size - i)).toNat) = _
        rw [hr]
      · intro c hm
        simp only [List.mem_singleton] at hm
        subst hm
        exact ⟨rfl, rfl, hj1, hj2⟩

/-! ## C11: `write_all` completes partial writes -/

/-- C11: for every descriptor, every size and every behaviour of `write`.
If `size > 0` and every call of `write` returns a count `j` with
`0 < j <= ` the count requested, then `write_all` (given fuel for `size`
iterations) returns `size`; each call starts at the first byte not yet written
and asks for all remaining bytes, and the bytes written, in call order, are the
bytes `0 .. size - 1` of the buffer.  And whatever `write` does: a call that
returned a negative value is the last call made, and `write_all` returns that
value. -/
theorem write_all_completes (write : Writer) (fd size : Int) (buf : Mem) (fuel : Nat) :
    (0 < size → size.toNat ≤ fuel →
      (∀ calls off cnt, 0 ≤ off → 0 < cnt → off + cnt = size →
        0 < write calls fd off cnt ∧ write calls fd off cnt ≤ cnt) →
      (write_all write fd size fuel).1 = some size ∧
      back_to_back 0 (write_all write fd size fuel).2 ∧
      written_bytes buf (write_all write fd size fuel).2 =
        (List.range size.toNat).map (fun (k : Nat) => buf (k : Int)) ∧
      ∀ c ∈ (write_all write fd size fuel).2,
        c.fd = fd ∧ c.count = size - c.offset ∧ 0 < c.ret ∧ c.ret ≤ c.count) ∧
    (∀ init c rest, (write_all write fd size fuel).2 = init ++ c :: rest → c.ret < 0 →
      rest = [] ∧ (write_all write fd size fuel).1 = some c.ret) := by
  constructor
  · intro hs hf hw
    obtain ⟨h1, new, h2, h3, h4, h5⟩ := write_all_loop_complete write fd size buf hw fuel 0 []
      (Int.le_refl 0) hs (by simpa using hf)
    rw [List.nil_append] at h2
    unfold write_all
    rw [h2]
    refine ⟨h1, h3, ?_, h5⟩
    rw [h4]
    simp
  · intro init c rest he hc
    exact write_all_loop_negative write fd size fuel 0 [] (by simp) init c rest he hc

/-- Witness for C11: eight bytes written by a `write` that takes at most three
bytes per call, and by one that fails on its third call. -/
theorem write_all_completes_witness :
    ((write_all chunk_writer 3 8 8).1 = some 8 ∧
      back_to_back 0 (write_all chunk_writer 3 8 8).2 ∧
      written_bytes ramp (write_all chunk_writer 3 8 8).2 =
        (List.range (8 : Int).toNat).map (fun (k : Nat) => ramp (k : Int)) ∧
      ∀ c ∈ (write_all chunk_writer 3 8 8).2,
        c.fd = 3 ∧ c.count = 8 - c.offset ∧ 0 < c.ret ∧ c.ret ≤ c.count) ∧
    (([] : List WriteCall) = [] ∧ (write_all failing_writer 3 8 8).1 = some (-1)) :=
  ⟨(write_all_completes chunk_writer 3 8 ramp 8).1 (by decide) (by decide)
      (by
        intro calls off cnt _ h2 _
        show 0 < min cnt 3 ∧ min cnt 3 ≤ cnt
        omega),
    (write_all_completes failing_writer 3 8 ramp 8).2
      [{ fd := 3, offset := 0, count := 8, ret := 3 },
       { fd := 3, offset := 3, count := 5, ret := 3 }]
      { fd := 3, offset := 6, count := 2, ret := -1 } [] (by decide) (by decide)⟩

/-! ## C12: unsupported pixel format -/

/-- C12: for every frame whose `frametype` is not `CAMERA_FRAMETYPE_NV12`, every
content of fresh memory and every context (initialised or not, running or
not), `ffcamera_vfcallback` returns the context as it was, so queue, running
flag and frame counter are unchanged and the frame is not enqueued, and it has
no effect: nothing is allocated and the condition is not signalled. -/
theorem vfcallback_other_format (sz : Nat) (junk : camera_buffer_t) (fresh : Mem) (buf : camera_buffer_t)
    (ctx : ffcamera_context)
    (hnv : buf.frametype ≠ .CAMERA_FRAMETYPE_NV12) :
    ffcamera_vfcallback sz junk fresh buf ctx = (ctx, []) ∧ enqueued sz junk fresh buf ctx = [] := by
  have h : ffcamera_vfcallback sz junk fresh buf ctx = (ctx, []) := by
    unfold ffcamera_vfcallback
    rw [if_pos hnv]
  refine ⟨h, ?_⟩
  unfold enqueued
  rw [h]
  cases hr : ctx.reserved with
  | none => rfl
  | some r => simp

/-- Witness for C12: a frame tagged `OTHER 7` delivered to a running
pipeline. -/
theorem vfcallback_other_format_witness :
    ffcamera_vfcallback 512 junk_block zeros other_frame running_context = (running_context, []) ∧
    enqueued 512 junk_block zeros other_frame running_context = [] :=
  vfcallback_other_format 512 junk_block zeros other_frame running_context (by decide)

/-! ## C13: sink routing -/

/-- The worker never changes its copy of `fd`. -/
theorem step_fd (enc : Encoder) (cb : Option Nat) (b : Bool) (w : Worker) :
    (encoding_thread_step enc cb b w).fd = w.fd := by
  unfold encoding_thread_step
  cases w.phase with
  | encoding =>
    cases hf : w.frames with
    | nil => cases b <;> simp
    | cons f rest => simp
  | flushing => rfl
  | exited => rfl

theorem run_fd (enc : Encoder) (cb : Option Nat) (running_at : Nat → Bool)
    (ctx : ffcamera_context) (r : ffcamera_reserved) (n : Nat) :
    (encoding_thread_run enc cb running_at n (encoding_thread_begin ctx r)).fd = ctx.fd := by
  induction n with
  | zero => rfl
  | succ n ih =>
    show (encoding_thread_step enc cb (running_at n) _).fd = _
    rw [step_fd, ih]

/-- What `deliver` hands to the sinks, case by case. -/
theorem deliver_cases (fd : Int) (cb : Option Nat) (res : EncodeResult) :
    (res.success = 0 ∧ res.got_packet > 0 →
      (∀ c, cb = some c → deliver fd cb res = [.write_callback c res.data]) ∧
      (cb = none → deliver fd cb res = [.write_all fd res.data])) ∧
    (¬ (res.success = 0 ∧ res.got_packet > 0) → deliver fd cb res = []) := by
  refine ⟨fun h => ⟨?_, ?_⟩, fun h => ?_⟩
  · intro c hc
    subst hc
    unfold deliver
    rw [if_pos h]
  · intro hc
    subst hc
    unfold deliver
    rw [if_pos h]
  · unfold deliver
    rw [if_neg h]

/-- C13: in every pass `n` of every worker run, for every encoder, sink
configuration and behaviour of the running flag.  In a pass that calls the
encoder, with a dequeued frame or in the flush loop, if the call returned `0`
with `got_packet > 0` (a completed packet) the sink log grows by exactly one
event carrying the bytes of the packet: a call of the configured callback if
there is one, and nothing for the descriptor, otherwise a `write_all` on the `fd`
of the context; if the call did not report a completed packet the sink log is
unchanged.  In a pass that does not call the encoder the sink log is
unchanged. -/
theorem sink_routing (enc : Encoder) (cb : Option Nat) (running_at : Nat → Bool)
    (ctx : ffcamera_context) (r : ffcamera_reserved) (n : Nat) :
    (∀ f rest,
      (encoding_thread_run enc cb running_at n (encoding_thread_begin ctx r)).phase = .encoding →
      (encoding_thread_run enc cb running_at n (encoding_thread_begin ctx r)).frames = f :: rest →
      (((enc (encoding_thread_run enc cb running_at n (encoding_thread_begin ctx r)).calls
            (some (encoder_frame f
              (encoding_thread_run enc cb running_at n
                (encoding_thread_begin ctx r)).frame_count))).success = 0 ∧
          (enc (encoding_thread_run enc cb running_at n (encoding_thread_begin ctx r)).calls
            (some (encoder_frame f
              (encoding_thread_run enc cb running_at n
                (encoding_thread_begin ctx r)).frame_count))).got_packet > 0) →
        (∀ c, cb = some c →
          (encoding_thread_run enc cb running_at (n + 1) (encoding_thread_begin ctx r)).sink =
            (encoding_thread_run enc cb running_at n (encoding_thread_begin ctx r)).sink ++
              [.write_callback c
                (enc (encoding_thread_run enc cb running_at n (encoding_thread_begin ctx r)).calls
                  (some (encoder_frame f
                    (encoding_thread_run enc cb running_at n
                      (encoding_thread_begin ctx r)).frame_count))).data]) ∧
        (cb = none →
          (encoding_thread_run enc cb running_at (n + 1) (encoding_thread_begin ctx r)).sink =
            (encoding_thread_run enc cb running_at n (encoding_thread_begin ctx r)).sink ++
              [.write_all ctx.fd
                (enc (encoding_thread_run enc cb running_at n (encoding_thread_begin ctx r)).calls
                  (some (encoder_frame f
                    (encoding_thread_run enc cb running_at n
                      (encoding_thread_begin ctx r)).frame_count))).data])) ∧
      (¬ ((enc (encoding_thread_run enc cb running_at n (encoding_thread_begin ctx r)).calls
            (some (encoder_frame f
              (encoding_thread_run enc cb running_at n
                (encoding_thread_begin ctx r)).frame_count))).success = 0 ∧
          (enc (encoding_thread_run enc cb running_at n (encoding_thread_begin ctx r)).calls
            (some (encoder_frame f
              (encoding_thread_run enc cb running_at n
                (encoding_thread_begin ctx r)).frame_count))).got_packet > 0) →
        (encoding_thread_run enc cb running_at (n + 1) (encoding_thread_begin ctx r)).sink =
          (encoding_thread_run enc cb running_at n (encoding_thread_begin ctx r)).sink)) ∧
    ((encoding_thread_run enc cb running_at n (encoding_thread_begin ctx r)).phase = .flushing →
      (((enc (encoding_thread_run enc cb running_at n (encoding_thread_begin ctx r)).calls
            none).success = 0 ∧
          (enc (encoding_thread_run enc cb running_at n (encoding_thread_begin ctx r)).calls
            none).got_packet > 0) →
        (∀ c, cb = some c →
          (encoding_thread_run enc cb running_at (n + 1) (encoding_thread_begin ctx r)).sink =
            (encoding_thread_run enc cb running_at n (encoding_thread_begin ctx r)).sink ++
              [.write_callback c
                (enc (encoding_thread_run enc cb running_at n (encoding_thread_begin ctx r)).calls
                  none).data]) ∧
        (cb = none →
          (encoding_thread_run enc cb running_at (n + 1) (encoding_thread_begin ctx r)).sink =
            (encoding_thread_run enc cb running_at n (encoding_thread_begin ctx r)).sink ++
              [.write_all ctx.fd
                (enc (encoding_thread_run enc cb running_at n (encoding_thread_begin ctx r)).calls
                  none).data])) ∧
      (¬ ((enc (encoding_thread_run enc cb running_at n (encoding_thread_begin ctx r)).calls
            none).success = 0 ∧
          (enc (encoding_thread_run enc cb running_at n (encoding_thread_begin ctx r)).calls
            none).got_packet > 0) →
        (encoding_thread_run enc cb running_at (n + 1) (encoding_thread_begin ctx r)).sink =
          (encoding_thread_run enc cb running_at n (encoding_thread_begin ctx r)).sink)) ∧
    (((encoding_thread_run enc cb running_at n (encoding_thread_begin ctx r)).phase = .exited ∨
        ((encoding_thread_run enc cb running_at n (encoding_thread_begin ctx r)).phase =
            .encoding ∧
          (encoding_thread_run enc cb running_at n (encoding_thread_begin ctx r)).frames = [])) →
      (encoding_thread_run enc cb running_at (n + 1) (encoding_thread_begin ctx r)).sink =
        (encoding_thread_run enc cb running_at n (encoding_thread_begin ctx r)).sink) := by
  have hfd := run_fd enc cb running_at ctx r n
  have hstep : encoding_thread_run enc cb running_at (n + 1) (encoding_thread_begin ctx r) =
      encoding_thread_step enc cb (running_at n)
        (encoding_thread_run enc cb running_at n (encoding_thread_begin ctx r)) := rfl
  rw [hstep]
  generalize encoding_thread_run enc cb running_at n (encoding_thread_begin ctx r) = w at hfd ⊢
  refine ⟨?_, ?_, ?_⟩
  · intro f rest hp hf
    rw [step_encoding_cons enc cb _ w f rest hp hf]
    obtain ⟨d1, d2⟩ := deliver_cases w.fd cb (enc w.calls (some (encoder_frame f w.frame_count)))
    refine ⟨fun h => ⟨fun c hc => ?_, fun hc => ?_⟩, fun h => ?_⟩
    · show w.sink ++ deliver _ _ _ = _
      rw [(d1 h).1 c hc]
    · show w.sink ++ deliver _ _ _ = _
      rw [(d1 h).2 hc, hfd]
    · show w.sink ++ deliver _ _ _ = _
      rw [d2 h, List.append_nil]
  · intro hp
    rw [step_flushing enc cb _ w hp]
    obtain ⟨d1, d2⟩ := deliver_cases w.fd cb (enc w.calls none)
    refine ⟨fun h => ⟨fun c hc => ?_, fun hc => ?_⟩, fun h => ?_⟩
    · show w.sink ++ deliver _ _ _ = _
      rw [(d1 h).1 c hc]
    · show w.sink ++ deliver _ _ _ = _
      rw [(d1 h).2 hc, hfd]
    · show w.sink ++ deliver _ _ _ = _
      rw [d2 h, List.append_nil]
  · rintro (hp | ⟨hp, hf⟩)
    · rw [step_exited enc cb _ w hp]
    · cases hb : running_at n with
      | true => rw [step_encoding_wait enc cb w hp hf]
      | false => rw [step_encoding_leave enc cb w hp hf]

/-- Witness for C13: the first pass over three queued frames with a callback
configured delivers the packet to the callback; without callback it goes to
`write_all` on the descriptor of the context; pass 4 calls no encoder and
delivers nothing. -/
theorem sink_routing_witness :
    (encoding_thread_run buffering_encoder (some 7) stop_after_four 1
        (encoding_thread_begin ready_context three_queued)).sink =
      (encoding_thread_run buffering_encoder (some 7) stop_after_four 0
        (encoding_thread_begin ready_context three_queued)).sink ++
        [.write_callback 7 [0]] ∧
    (encoding_thread_run buffering_encoder none stop_after_four 1
        (encoding_thread_begin ready_context three_queued)).sink =
      (encoding_thread_run buffering_encoder none stop_after_four 0
        (encoding_thread_begin ready_context three_queued)).sink ++
        [.write_all 0 [0]] ∧
    (encoding_thread_run buffering_encoder none stop_after_four 4
        (encoding_thread_begin ready_context three_queued)).sink =
      (encoding_thread_run buffering_encoder none stop_after_four 3
        (encoding_thread_begin ready_context three_queued)).sink :=
  ⟨((sink_routing buffering_encoder (some 7) stop_after_four ready_context three_queued 0).1
      _ _ rfl rfl).1 ⟨rfl, by decide⟩ |>.1 7 rfl,
    ((sink_routing buffering_encoder none stop_after_four ready_context three_queued 0).1
      _ _ rfl rfl).1 ⟨rfl, by decide⟩ |>.2 rfl,
    (sink_routing buffering_encoder none stop_after_four ready_context three_queued 3).2.2
      (Or.inr ⟨rfl, rfl⟩)⟩

/-! ## C14: encoder failure is not fatal -/

/-- C14 (as amended): for every worker run over the queued frames `r.frames`
from a counter value `c` of the `int` range, every encoder, sink configuration
and behaviour of the running flag, and every `i` below the number of frames
with `c + i` below the largest `int`: pass `i` is the encoder call for frame
`i`, made after the calls for the frames before it; if that call returns a
negative result, the pass delivers nothing to any sink, advances the counter by
one and releases frame `i`; and after `N` passes or more the calls with an
input frame are all queued frames in order with their indices, the same calls
as with any other encoder. -/
theorem encoder_failure_not_fatal (enc : Encoder) (cb : Option Nat) (running_at : Nat → Bool)
    (ctx : ffcamera_context) (r : ffcamera_reserved) (i : Nat) (hi : i < r.frames.length)
    (hlo : -2147483648 ≤ r.frame_count) (hhi : r.frame_count + i < 2147483647)
    (hneg : (enc ((numbered_frames r.frame_count (r.frames.take i)).map some)
      (some (encoder_frame r.frames[i] (r.frame_count + i)))).success < 0) :
    (encoding_thread_run enc cb running_at i (encoding_thread_begin ctx r)).calls =
      (numbered_frames r.frame_count (r.frames.take i)).map some ∧
    (encoding_thread_run enc cb running_at (i + 1) (encoding_thread_begin ctx r)).calls =
      (encoding_thread_run enc cb running_at i (encoding_thread_begin ctx r)).calls ++
        [some (encoder_frame r.frames[i] (r.frame_count + i))] ∧
    (encoding_thread_run enc cb running_at (i + 1) (encoding_thread_begin ctx r)).sink =
      (encoding_thread_run enc cb running_at i (encoding_thread_begin ctx r)).sink ∧
    (encoding_thread_run enc cb running_at (i + 1) (encoding_thread_begin ctx r)).frame_count =
      (encoding_thread_run enc cb running_at i (encoding_thread_begin ctx r)).frame_count + 1 ∧
    (encoding_thread_run enc cb running_at (i + 1) (encoding_thread_begin ctx r)).freed =
      (encoding_thread_run enc cb running_at i (encoding_thread_begin ctx r)).freed ++
        [r.frames[i]] ∧
    (∀ n, r.frames.length ≤ n →
      input_calls (encoding_thread_run enc cb running_at n (encoding_thread_begin ctx r)) =
        numbered_frames r.frame_count r.frames) ∧
    (∀ (enc2 : Encoder) n, r.frames.length ≤ n →
      input_calls (encoding_thread_run enc2 cb running_at n (encoding_thread_begin ctx r)) =
        input_calls (encoding_thread_run enc cb running_at n (encoding_thread_begin ctx r))) := by
  obtain ⟨h1, h2, h3, h4, _⟩ := run_dequeues enc cb running_at (encoding_thread_begin ctx r) rfl
    i (Nat.le_of_lt hi)
  have hd : (encoding_thread_run enc cb running_at i (encoding_thread_begin ctx r)).frames =
      r.frames[i] :: r.frames.drop (i + 1) := h2.trans (List.drop_eq_getElem_cons hi)
  have hc : (encoding_thread_run enc cb running_at i (encoding_thread_begin ctx r)).calls =
      (numbered_frames r.frame_count (r.frames.take i)).map some := by
    rw [h4]
    exact List.nil_append _
  have hk : (encoding_thread_run enc cb running_at i
      (encoding_thread_begin ctx r)).frame_count = r.frame_count + i :=
    h3.trans (advance_of_bounds r.frame_count i hlo (by omega))
  have hstep : encoding_thread_run enc cb running_at (i + 1) (encoding_thread_begin ctx r) =
      encoding_thread_step enc cb (running_at i)
        (encoding_thread_run enc cb running_at i (encoding_thread_begin ctx r)) := rfl
  rw [hstep, step_encoding_cons enc cb _ _ _ _ h1 hd]
  refine ⟨hc, ?_, ?_, ?_, rfl, ?_, ?_⟩
  · show _ ++ [some (encoder_frame _ _)] = _
    rw [hk]
  · show _ ++ deliver _ _ _ = _
    rw [hk, hc]
    unfold deliver
    rw [if_neg (by omega), List.append_nil]
  · show wrap_int (_ + 1) = _
    rw [hk]
    unfold wrap_int
    omega
  · intro n hn
    exact input_calls_after_run enc cb running_at ctx r n hn
  · intro enc2 n hn
    rw [input_calls_after_run enc2 cb running_at ctx r n hn,
      input_calls_after_run enc cb running_at ctx r n hn]

/-- Witness for C14: three queued frames and an encoder that fails on its second
call (`i = 1`). -/
theorem encoder_failure_not_fatal_witness :
    (encoding_thread_run failing_encoder none stop_after_four 2
        (encoding_thread_begin ready_context three_queued)).sink =
      (encoding_thread_run failing_encoder none stop_after_four 1
        (encoding_thread_begin ready_context three_queued)).sink ∧
    (encoding_thread_run failing_encoder none stop_after_four 2
        (encoding_thread_begin ready_context three_queued)).frame_count =
      (encoding_thread_run failing_encoder none stop_after_four 1
        (encoding_thread_begin ready_context three_queued)).frame_count + 1 ∧
    (∀ n, 3 ≤ n →
      input_calls (encoding_thread_run failing_encoder none stop_after_four n
        (encoding_thread_begin ready_context three_queued)) =
        numbered_frames 0 three_queued.frames) := by
  obtain ⟨_, _, h3, h4, _, h6, _⟩ := encoder_failure_not_fatal failing_encoder none
    stop_after_four ready_context three_queued 1 (by decide) (by decide) (by decide) (by
      have hlen : ((numbered_frames three_queued.frame_count
          (three_queued.frames.take 1)).map some).length = 1 := by
        simp [numbered_frames_length, three_queued]
      simp only [failing_encoder, hlen]
      decide)
  exact ⟨h3, h4, h6⟩

/-- C14 as stated fails.  With three frames queued and the counter at
`2147483646`, the encoder call of pass 1 (the second call) returns `-1`.  The
counter stood at `2147483647`, the largest `int`, before that pass and stands
at `-2147483648` after it: the pass did not advance it by one. -/
theorem encoder_failure_not_fatal_fails_on_overflow :
    (∀ frame, (failing_encoder
        (encoding_thread_run failing_encoder none stop_after_four 1
          (encoding_thread_begin ready_context three_queued_late)).calls frame).success < 0) ∧
    (encoding_thread_run failing_encoder none stop_after_four 1
        (encoding_thread_begin ready_context three_queued_late)).frame_count = 2147483647 ∧
    (encoding_thread_run failing_encoder none stop_after_four 2
        (encoding_thread_begin ready_context three_queued_late)).frame_count = -2147483648 := by
  obtain ⟨_, _, a3, a4, _⟩ := run_dequeues failing_encoder none stop_after_four
    (encoding_thread_begin ready_context three_queued_late) rfl 1 (by decide)
  obtain ⟨_, _, b3, _, _⟩ := run_dequeues failing_encoder none stop_after_four
    (encoding_thread_begin ready_context three_queued_late) rfl 2 (by decide)
  refine ⟨?_, a3.trans (by decide), b3.trans (by decide)⟩
  intro frame
  have hlen : (encoding_thread_run failing_encoder none stop_after_four 1
      (encoding_thread_begin ready_context three_queued_late)).calls.length = 1 := by
    rw [a4]
    simp [numbered_frames_length, encoding_thread_begin, three_queued_late, three_queued]
  simp only [failing_encoder, hlen]
  decide

/-! ## Lemmas about store traces -/

theorem mem_span_trace (base : Int) (n : Nat) (a : Int) :
    a ∈ span_trace base n ↔ base ≤ a ∧ a < base + n := by
  induction n with
  | zero =>
    simp only [span_trace, List.not_mem_nil, false_iff]
    omega
  | succ n ih =>
    simp only [span_trace, List.mem_cons, ih]
    omega

theorem nodup_span_trace (base : Int) (n : Nat) : (span_trace base n).Nodup := by
  induction n with
  | zero => exact List.nodup_nil
  | succ n ih =>
    simp only [span_trace, List.nodup_cons]
    refine ⟨?_, ih⟩
    rw [mem_span_trace]
    omega

theorem span_trace_add (base : Int) (a b : Nat) :
    span_trace base (a + b) = span_trace (base + a) b ++ span_trace base a := by
  induction b with
  | zero => rfl
  | succ b ih =>
    show (base + ((a + b : Nat) : Int)) :: span_trace base (a + b) =
      (base + a + (b : Int)) :: span_trace (base + a) b ++ span_trace base a
    rw [ih]
    have e : base + ((a + b : Nat) : Int) = base + a + (b : Int) := by omega
    rw [e]
    rfl

theorem mem_pair_trace (du dv : Int) (n : Nat) (a : Int) :
    a ∈ pair_trace du dv n ↔ (du ≤ a ∧ a < du + n) ∨ (dv ≤ a ∧ a < dv + n) := by
  induction n with
  | zero =>
    simp only [pair_trace, List.not_mem_nil, false_iff]
    omega
  | succ n ih =>
    simp only [pair_trace, List.mem_cons, ih]
    omega

theorem nodup_pair_trace (du dv : Int) (n : Nat) (hsep : du + n ≤ dv) :
    (pair_trace du dv n).Nodup := by
  induction n with
  | zero => exact List.nodup_nil
  | succ n ih =>
    push_cast at hsep
    simp only [pair_trace, List.nodup_cons, List.mem_cons, mem_pair_trace]
    refine ⟨by omega, by omega, ih (by omega)⟩

theorem pair_trace_add (du dv : Int) (a b : Nat) :
    pair_trace du dv (a + b) = pair_trace (du + a) (dv + a) b ++ pair_trace du dv a := by
  induction b with
  | zero => rfl
  | succ b ih =>
    show (dv + ((a + b : Nat) : Int)) :: (du + ((a + b : Nat) : Int)) :: pair_trace du dv (a + b) =
      (dv + a + (b : Int)) :: (du + a + (b : Int)) :: pair_trace (du + a) (dv + a) b ++
        pair_trace du dv a
    rw [ih]
    have e1 : dv + ((a + b : Nat) : Int) = dv + a + (b : Int) := by omega
    have e2 : du + ((a + b : Nat) : Int) = du + a + (b : Int) := by omega
    rw [e1, e2]
    rfl

/-- The stores of `memcpy`: `n` consecutive bytes from `doff`. -/
theorem memcpy_stores (d : Dest) (doff : Int) (src : Mem) (soff : Int) (n : Nat) :
    (memcpy d doff src soff n).stores = span_trace doff n ++ d.stores := by
  induction n with
  | zero => rfl
  | succ n ih =>
    show (doff + (n : Int)) :: (memcpy d doff src soff n).stores = _
    rw [ih]
    rfl

/-- Without wrap-around of the destination offsets, the first `n` rows of the
luma loop store the bytes `0 .. n * width - 1`, each once, in ascending
order. -/
theorem luma_loop_stores (w s : Nat) (src : Mem) (d : Dest) (n : Nat)
    (hn : n * w ≤ 4294967296) :
    (luma_loop w s w src d n).stores = span_trace 0 (n * w) ++ d.stores := by
  induction n with
  | zero =>
    rw [Nat.zero_mul]
    rfl
  | succ n ih =>
    have e : (n + 1) * w = n * w + w := by ring
    rcases Nat.eq_zero_or_pos w with hw | hw
    · subst hw
      simp only [luma_loop, memcpy]
      exact ih (by omega)
    · have hlt : n * w < 4294967296 := by omega
      simp only [luma_loop, memcpy_stores, u32_of_lt hlt]
      rw [ih (by omega), e, span_trace_add, List.append_assoc, Int.zero_add]

/-- The stores of the inner chroma loop. -/
theorem chroma_inner_stores (src : Mem) (n : Nat) (c : ChromaCursor) :
    (chroma_inner src n c).dest.stores = pair_trace c.destu c.destv n ++ c.dest.stores := by
  induction n with
  | zero => rfl
  | succ n ih =>
    obtain ⟨_, _, h3, h4⟩ := chroma_inner_ptrs src n c
    show (chroma_inner src n c).destv :: (chroma_inner src n c).destu ::
      (chroma_inner src n c).dest.stores = _
    rw [ih, h3, h4]
    rfl

/-- The stores of one iteration of the outer chroma loop. -/
theorem chroma_row_stores (src : Mem) (w s : Nat) (c : ChromaCursor) :
    (chroma_row src w s c).dest.stores = pair_trace c.destu c.destv (w / 2) ++ c.dest.stores :=
  chroma_inner_stores src (w / 2)
    { srcuv := c.srcuv, curuv := c.srcuv, destu := c.destu, destv := c.destv, dest := c.dest }

/-- The stores of the outer chroma loop: the two destination pointers run on
from row to row. -/
theorem chroma_loop_stores (src : Mem) (w s : Nat) (m : Nat) (c : ChromaCursor) :
    (chroma_loop src w s m c).dest.stores =
      pair_trace c.destu c.destv (m * (w / 2)) ++ c.dest.stores := by
  induction m with
  | zero =>
    rw [Nat.zero_mul]
    rfl
  | succ m ih =>
    obtain ⟨_, h2, h3⟩ := chroma_loop_ptrs src w s m c
    have e : (m + 1) * (w / 2) = m * (w / 2) + w / 2 := by ring
    show (chroma_row src w s (chroma_loop src w s m c)).dest.stores = _
    rw [chroma_row_stores, ih, h2, h3, e, pair_trace_add, List.append_assoc]

/-- An accepted frame whose stores leave the blocks allocated, or that is
appended to a deque that was not constructed, makes the call undefined. -/
theorem vfcallback_undefined (sz : Nat) (fresh : Mem) (buf : camera_buffer_t)
    (ctx : ffcamera_context) (r : ffcamera_reserved)
    (hnv : buf.frametype = .CAMERA_FRAMETYPE_NV12) (hr : ctx.reserved = some r)
    (hrun : r.running = true)
    (h : r.frames_constructed = false ∨ stores_in_bounds sz fresh buf = false) :
    vfcallback_defined sz fresh buf ctx = false := by
  unfold vfcallback_defined
  rw [if_neg (not_not.mpr hnv), hr]
  simp only [hrun, Bool.not_true, Bool.false_eq_true, if_false]
  rcases h with h | h
  · rw [h, Bool.false_and]
  · rw [h, Bool.and_false]

/-! ## C15: push appends at the tail -/

/-- One defined call on a context whose running flag is set leaves the flag
set and the counter as it was; `ffcamera_start` answers
`FFCAMERA_ALREADY_RUNNING`, `ffcamera_stop` answers `FFCAMERA_ALREADY_STOPPED`,
and no worker is spawned. -/
theorem do_call_stuck (sz : Nat) (ctx : ffcamera_context) (r : ffcamera_reserved)
    (hr : ctx.reserved = some r) (hrun : r.running = true) (c : Call)
    (res : ffcamera_context × Option ffcamera_error × List Effect)
    (hres : do_call sz ctx c = some res) :
    (∃ r1, res.1.reserved = some r1 ∧ r1.running = true ∧
      r1.frame_count = r.frame_count) ∧
    (c = .start → res.2.1 = some .FFCAMERA_ALREADY_RUNNING) ∧
    (c = .stop → res.2.1 = some .FFCAMERA_ALREADY_STOPPED) ∧
    Effect.pthread_create_encoding_thread ∉ res.2.2 := by
  cases c with
  | start =>
    have h : ffcamera_start ctx = (.FFCAMERA_ALREADY_RUNNING, ctx, []) := by
      unfold ffcamera_start
      simp [hr, hrun]
    simp only [do_call, h, Option.some.injEq] at hres
    subst hres
    refine ⟨⟨r, hr, hrun, rfl⟩, ?_, ?_, ?_⟩
    · intro _
      rfl
    · intro hc
      cases hc
    · simp
  | stop =>
    have h : ffcamera_stop ctx = (.FFCAMERA_ALREADY_STOPPED, ctx, []) := by
      unfold ffcamera_stop
      simp [hr, hrun]
    simp only [do_call, h, Option.some.injEq] at hres
    subst hres
    refine ⟨⟨r, hr, hrun, rfl⟩, ?_, ?_, ?_⟩
    · intro hc
      cases hc
    · intro _
      rfl
    · simp
  | vfcallback junk fresh buf =>
    have h : (∃ r1, (ffcamera_vfcallback sz junk fresh buf ctx).1.reserved = some r1 ∧
        r1.running = true ∧ r1.frame_count = r.frame_count) ∧
        Effect.pthread_create_encoding_thread ∉ (ffcamera_vfcallback sz junk fresh buf ctx).2 := by
      by_cases hnv : buf.frametype = .CAMERA_FRAMETYPE_NV12
      · rw [vfcallback_accepted sz junk fresh buf ctx r hnv hr hrun]
        exact ⟨⟨_, rfl, hrun, rfl⟩, by simp⟩
      · have h0 : ffcamera_vfcallback sz junk fresh buf ctx = (ctx, []) := by
          unfold ffcamera_vfcallback
          rw [if_pos hnv]
        rw [h0]
        exact ⟨⟨r, hr, hrun, rfl⟩, by simp⟩
    simp only [do_call] at hres
    split at hres
    · simp only [Option.some.injEq] at hres
      subst hres
      refine ⟨h.1, ?_, ?_, h.2⟩
      · intro hc
        cases hc
      · intro hc
        cases hc
    · cases hres
  | set_codec_context codec =>
    simp only [do_call, Option.some.injEq] at hres
    subst hres
    refine ⟨⟨r, hr, hrun, rfl⟩, ?_, ?_, ?_⟩
    · intro hc
      cases hc
    · intro hc
      cases hc
    · simp

/-- A call other than a callback with an NV12 frame is defined. -/
theorem do_call_defined (sz : Nat) (ctx : ffcamera_context) (c : Call) (hc : no_nv12_frame c) :
    ∃ res, do_call sz ctx c = some res := by
  cases c with
  | start => exact ⟨_, rfl⟩
  | stop => exact ⟨_, rfl⟩
  | vfcallback junk fresh buf =>
    have hne : buf.frametype ≠ .CAMERA_FRAMETYPE_NV12 := hc
    have hd : vfcallback_defined sz fresh buf ctx = true := by
      unfold vfcallback_defined
      rw [if_pos hne]
    simp only [do_call, hd, if_true]
    exact ⟨_, rfl⟩
  | set_codec_context codec => exact ⟨_, rfl⟩

/-- A sequence of calls without an NV12 frame on a context whose running flag
is set is defined; every call is logged with its result. -/
theorem do_calls_stuck (sz : Nat) (cs : List Call) (ctx : ffcamera_context)
    (r : ffcamera_reserved) (hr : ctx.reserved = some r) (hrun : r.running = true)
    (hcs : ∀ c ∈ cs, no_nv12_frame c) :
    ∃ ctx1 log, do_calls sz ctx cs = some (ctx1, log) ∧
      (∃ r1, ctx1.reserved = some r1 ∧ r1.running = true ∧ r1.frame_count = r.frame_count) ∧
      log.map Prod.fst = cs ∧
      ∀ e ∈ log,
        (e.1 = .start → e.2.1 = some .FFCAMERA_ALREADY_RUNNING) ∧
        (e.1 = .stop → e.2.1 = some .FFCAMERA_ALREADY_STOPPED) ∧
        Effect.pthread_create_encoding_thread ∉ e.2.2 := by
  induction cs generalizing ctx r with
  | nil => exact ⟨ctx, [], rfl, ⟨r, hr, hrun, rfl⟩, rfl, by simp⟩
  | cons c cs ih =>
    obtain ⟨res, hres⟩ := do_call_defined sz ctx c (hcs c (List.mem_cons_self _ _))
    obtain ⟨⟨r1, h1, h2, h3⟩, k1, k2, k3⟩ := do_call_stuck sz ctx r hr hrun c res hres
    obtain ⟨ctx1, log, g0, ⟨r2, g1, g2, g3⟩, g4, g5⟩ := ih res.1 r1 h1 h2
      (fun c1 hc1 => hcs c1 (List.mem_cons_of_mem _ hc1))
    refine ⟨ctx1, (c, res.2) :: log, ?_, ⟨r2, g1, g2, g3.trans h3⟩, ?_, ?_⟩
    · simp only [do_calls, hres, g0]
    · simp only [List.map_cons, g4]
    · intro e he
      rw [List.mem_cons] at he
      rcases he with he | he
      · subst he
        exact ⟨k1, k2, k3⟩
      · exact g5 e he

/-- C16 (as amended): starting from the state `ffcamera_init` produces, for
every finite sequence of calls of `ffcamera_start`, `ffcamera_stop` and
`ffcamera_vfcallback` and assignments to `codec_context` in which no callback
delivers an NV12 frame: every call of the sequence is defined; after the
sequence and after every prefix of it the running flag is set and the frame
counter is 0; every `ffcamera_start` returned `FFCAMERA_ALREADY_RUNNING`, every
`ffcamera_stop` returned `FFCAMERA_ALREADY_STOPPED`, and no call spawned an
encoding worker. -/
theorem lifecycle_stuck_running (sz : Nat) (ctx0 : ffcamera_context) (cs : List Call)
    (hcs : ∀ c ∈ cs, no_nv12_frame c) :
    (∀ k, ∃ ctx1 log r, do_calls sz (ffcamera_init ctx0) (cs.take k) = some (ctx1, log) ∧
      ctx1.reserved = some r ∧ r.running = true ∧ r.frame_count = 0) ∧
    (∃ ctx1 log r, do_calls sz (ffcamera_init ctx0) cs = some (ctx1, log) ∧
      ctx1.reserved = some r ∧ r.running = true ∧ r.frame_count = 0 ∧
      log.map Prod.fst = cs ∧
      ∀ e ∈ log,
        (e.1 = .start → e.2.1 = some .FFCAMERA_ALREADY_RUNNING) ∧
        (e.1 = .stop → e.2.1 = some .FFCAMERA_ALREADY_STOPPED) ∧
        Effect.pthread_create_encoding_thread ∉ e.2.2) := by
  refine ⟨fun k => ?_, ?_⟩
  · obtain ⟨ctx1, log, h0, ⟨r1, h1, h2, h3⟩, _, _⟩ :=
      do_calls_stuck sz (cs.take k) (ffcamera_init ctx0) _ rfl rfl
        (fun c hc => hcs c (List.mem_of_mem_take hc))
    exact ⟨ctx1, log, r1, h0, h1, h2, h3⟩
  · obtain ⟨ctx1, log, h0, ⟨r1, h1, h2, h3⟩, h4, h5⟩ :=
      do_calls_stuck sz cs (ffcamera_init ctx0) _ rfl rfl hcs
    exact ⟨ctx1, log, r1, h0, h1, h2, h3, h4, h5⟩

/-- Witness for C16: after `ffcamera_init`, a start, a callback with a frame
that is not NV12, the assignment of an encoder, a second start and a stop. -/
theorem lifecycle_stuck_running_witness :
    ∃ ctx1 log r,
      do_calls 512 (ffcamera_init blank_context)
        [.start, .vfcallback junk_block zeros other_frame, .set_codec_context (some 1),
         .start, .stop] = some (ctx1, log) ∧
      ctx1.reserved = some r ∧ r.running = true ∧ r.frame_count = 0 ∧
      log.map (fun e => e.2.1) =
        [some .FFCAMERA_ALREADY_RUNNING, none, none, some .FFCAMERA_ALREADY_RUNNING,
         some .FFCAMERA_ALREADY_STOPPED] := by
  obtain ⟨ctx1, log, r, h0, h1, h2, h3, _, _⟩ :=
    (lifecycle_stuck_running 512 blank_context
      [.start, .vfcallback junk_block zeros other_frame, .set_codec_context (some 1),
       .start, .stop]
      (by
        intro c hc
        simp only [List.mem_cons, List.mem_singleton, List.not_mem_nil, or_false] at hc
        rcases hc with rfl | rfl | rfl | rfl | rfl
        · trivial
        · show other_frame.frametype ≠ .CAMERA_FRAMETYPE_NV12
          decide
        · trivial
        · trivial
        · trivial)).2
  refine ⟨ctx1, log, r, h0, h1, h2, h3, ?_⟩
  have h : do_calls 512 (ffcamera_init blank_context)
      [.start, .vfcallback junk_block zeros other_frame, .set_codec_context (some 1),
       .start, .stop] =
      some (ctx1, log) := h0
  simp [do_calls, do_call, vfcallback_defined, ffcamera_vfcallback, other_frame, nv12_frame,
    ffcamera_start, ffcamera_stop, ffcamera_init, blank_context] at h
  rw [← h.2]
  rfl

/-- C16 as stated fails.  On the state `ffcamera_init` produces the running
flag is set and the deque of the structure, which came from `malloc`, was never
constructed: a callback that delivers an NV12 frame, here the 16x16 frame,
passes the tests of lines 240 and 245 and calls `push_back` on that deque, which
is undefined.  Nothing is known about the flag, the counter or later return
codes after that call. -/
theorem lifecycle_undefined_on_nv12_frame :
    (∃ r, (ffcamera_init blank_context).reserved = some r ∧ r.running = true ∧
      r.frames_constructed = false) ∧
    (nv12_frame 16 16 20 320).frametype = .CAMERA_FRAMETYPE_NV12 ∧
    vfcallback_defined 512 zeros (nv12_frame 16 16 20 320) (ffcamera_init blank_context) =
      false ∧
    do_calls 512 (ffcamera_init blank_context)
      [.vfcallback junk_block zeros (nv12_frame 16 16 20 320)] = none ∧
    do_calls 512 (ffcamera_init blank_context)
      [.vfcallback junk_block zeros (nv12_frame 16 16 20 320), .start] = none := by
  have h3 : vfcallback_defined 512 zeros (nv12_frame 16 16 20 320)
      (ffcamera_init blank_context) = false :=
    vfcallback_undefined 512 zeros _ (ffcamera_init blank_context) _ rfl rfl rfl (Or.inl rfl)
  refine ⟨⟨_, rfl, rfl, rfl⟩, rfl, h3, ?_, ?_⟩
  · simp [do_calls, do_call, h3]
  · simp [do_calls, do_call, h3]

/-! ## C17: converter stores stay in bounds and do not overlap -/

/-- C17: for every frame whose `width * height * 3` does not wrap around in 32
bits, with `P = (height / 2) * (width / 2)`.  The luma loop stores exactly the
offsets `0 .. width * height - 1`.  The chroma loop then stores, for each
`p < P`, at `width * height + p` through `destu` and at
`width * height + (width * height) / 4 + p` through `destv`; the former lie in
`[W*H, W*H + (W*H)/4)`, the latter in `[W*H + (W*H)/4, W*H*3/2)`.  Every offset
stored to is below the size allocated, `width * height * 3 / 2`, and no offset
is stored to twice. -/
theorem converter_stores_in_bounds (sz : Nat) (junk : camera_buffer_t)
    (fresh : Mem) (buf : camera_buffer_t)
    (hwh : buf.framedesc.width * buf.framedesc.height * 3 < 4294967296) :
    (convert sz junk fresh buf).framebuf = (convert_dest fresh buf).mem ∧
    (convert sz junk fresh buf).framebuf_size = buf.framedesc.width * buf.framedesc.height * 3 / 2 ∧
    (luma_loop buf.framedesc.width buf.framedesc.stride buf.framedesc.width buf.framebuf
        { mem := fresh, stores := [] } buf.framedesc.height).stores =
      span_trace 0 (buf.framedesc.width * buf.framedesc.height) ∧
    (convert_dest fresh buf).stores =
      pair_trace ((buf.framedesc.width * buf.framedesc.height : Nat) : Int)
          ((buf.framedesc.width * buf.framedesc.height +
            buf.framedesc.width * buf.framedesc.height / 4 : Nat) : Int)
          ((buf.framedesc.height / 2) * (buf.framedesc.width / 2)) ++
        span_trace 0 (buf.framedesc.width * buf.framedesc.height) ∧
    (∀ a : Int, a ∈ span_trace 0 (buf.framedesc.width * buf.framedesc.height) ↔
      0 ≤ a ∧ a < ((buf.framedesc.width * buf.framedesc.height : Nat) : Int)) ∧
    (∀ p : Nat, p < (buf.framedesc.height / 2) * (buf.framedesc.width / 2) →
      ((buf.framedesc.width * buf.framedesc.height + p : Nat) : Int) ∈
        (convert_dest fresh buf).stores ∧
      buf.framedesc.width * buf.framedesc.height + p <
        buf.framedesc.width * buf.framedesc.height +
          buf.framedesc.width * buf.framedesc.height / 4) ∧
    (∀ p : Nat, p < (buf.framedesc.height / 2) * (buf.framedesc.width / 2) →
      ((buf.framedesc.width * buf.framedesc.height +
          buf.framedesc.width * buf.framedesc.height / 4 + p : Nat) : Int) ∈
        (convert_dest fresh buf).stores ∧
      buf.framedesc.width * buf.framedesc.height +
          buf.framedesc.width * buf.framedesc.height / 4 + p <
        buf.framedesc.width * buf.framedesc.height * 3 / 2) ∧
    (∀ a ∈ (convert_dest fresh buf).stores,
      (0 ≤ a ∧ a < ((buf.framedesc.width * buf.framedesc.height : Nat) : Int)) ∨
      (∃ p : Nat, p < (buf.framedesc.height / 2) * (buf.framedesc.width / 2) ∧
        a = ((buf.framedesc.width * buf.framedesc.height + p : Nat) : Int)) ∨
      (∃ p : Nat, p < (buf.framedesc.height / 2) * (buf.framedesc.width / 2) ∧
        a = ((buf.framedesc.width * buf.framedesc.height +
          buf.framedesc.width * buf.framedesc.height / 4 + p : Nat) : Int))) ∧
    (∀ a ∈ (convert_dest fresh buf).stores,
      0 ≤ a ∧ a < (((convert sz junk fresh buf).framebuf_size : Nat) : Int)) ∧
    (convert_dest fresh buf).stores.Nodup := by
  have hlt : buf.framedesc.width * buf.framedesc.height < 4294967296 := by omega
  have hc : buf.framedesc.height * buf.framedesc.width =
      buf.framedesc.width * buf.framedesc.height := Nat.mul_comm _ _
  have hle := half_mul_half_le buf.framedesc.width buf.framedesc.height
  have hluma : (luma_loop buf.framedesc.width buf.framedesc.stride buf.framedesc.width
      buf.framebuf { mem := fresh, stores := [] } buf.framedesc.height).stores =
      span_trace 0 (buf.framedesc.width * buf.framedesc.height) := by
    rw [luma_loop_stores _ _ _ _ _ (by omega), hc]
    exact List.append_nil _
  have hall : (convert_dest fresh buf).stores =
      pair_trace ((buf.framedesc.width * buf.framedesc.height : Nat) : Int)
          ((buf.framedesc.width * buf.framedesc.height +
            buf.framedesc.width * buf.framedesc.height / 4 : Nat) : Int)
          ((buf.framedesc.height / 2) * (buf.framedesc.width / 2)) ++
        span_trace 0 (buf.framedesc.width * buf.framedesc.height) := by
    unfold convert_dest
    simp only []
    rw [chroma_loop_stores]
    simp only [packed_uv_offset_of_lt hlt, packed_v_offset_of_lt hlt]
    rw [hluma]
  have hsize : (convert sz junk fresh buf).framebuf_size =
      buf.framedesc.width * buf.framedesc.height * 3 / 2 := packed_size_of_lt hwh
  refine ⟨rfl, hsize, hluma, hall, ?_, ?_, ?_, ?_, ?_, ?_⟩
  · intro a
    rw [mem_span_trace]
    omega
  · intro p hp
    refine ⟨?_, by omega⟩
    rw [hall, List.mem_append, mem_pair_trace]
    left
    left
    omega
  · intro p hp
    refine ⟨?_, by omega⟩
    rw [hall, List.mem_append, mem_pair_trace]
    left
    right
    omega
  · intro a ha
    rw [hall, List.mem_append, mem_pair_trace, mem_span_trace] at ha
    rcases ha with (⟨h1, h2⟩ | ⟨h1, h2⟩) | ⟨h1, h2⟩
    · right
      left
      refine ⟨(a - ((buf.framedesc.width * buf.framedesc.height : Nat) : Int)).toNat, ?_, ?_⟩ <;>
        omega
    · right
      right
      refine ⟨(a - ((buf.framedesc.width * buf.framedesc.height +
        buf.framedesc.width * buf.framedesc.height / 4 : Nat) : Int)).toNat, ?_, ?_⟩ <;> omega
    · left
      omega
  · intro a ha
    rw [hall, List.mem_append, mem_pair_trace, mem_span_trace] at ha
    rw [hsize]
    omega
  · rw [hall, List.nodup_append]
    refine ⟨nodup_pair_trace _ _ _ (by omega), nodup_span_trace _ _, ?_⟩
    intro a h1 h2
    rw [mem_pair_trace] at h1
    rw [mem_span_trace] at h2
    omega

/-- Witness for C17: the 16x16 frame of stride 20; its converted buffer has 384
bytes, every store is below 384 and no offset is stored to twice. -/
theorem converter_stores_in_bounds_witness :
    (convert 512 junk_block zeros (nv12_frame 16 16 20 320)).framebuf_size = 384 ∧
    (∀ a ∈ (convert_dest zeros (nv12_frame 16 16 20 320)).stores,
      0 ≤ a ∧ a < (((convert 512 junk_block zeros (nv12_frame 16 16 20 320)).framebuf_size : Nat) : Int)) ∧
    (convert_dest zeros (nv12_frame 16 16 20 320)).stores.Nodup := by
  obtain ⟨_, h2, _, _, _, _, _, _, h9, h10⟩ :=
    converter_stores_in_bounds 512 junk_block zeros (nv12_frame 16 16 20 320) (by decide)
  exact ⟨h2, h9, h10⟩

/-! ## Lemmas about the planes handed to the encoder -/

theorem int_of_u32_of_lt {n : Nat} (h : n < 2147483648) : int_of_u32 n = (n : Int) := by
  unfold int_of_u32
  have e : n % 4294967296 = n := by omega
  rw [e, if_pos h]

/-- The planes of the frame the worker builds from a converted frame start at
the chroma offset of the descriptor and a quarter of `width * height` after it:
the start values of `destu` and `destv` in the converter. -/
theorem encoder_frame_convert (sz : Nat) (junk : camera_buffer_t) (fresh : Mem)
    (buf : camera_buffer_t) (pts : Int) (hsz : sz ≤ buf.framesize) :
    (encoder_frame (convert sz junk fresh buf) pts).data0 = 0 ∧
    (encoder_frame (convert sz junk fresh buf) pts).data1 =
      packed_uv_offset buf.framedesc.width buf.framedesc.height ∧
    (encoder_frame (convert sz junk fresh buf) pts).data2 =
      packed_v_offset buf.framedesc.width buf.framedesc.height ∧
    (encoder_frame (convert sz junk fresh buf) pts).linesize0 = int_of_u32 buf.framedesc.width ∧
    (encoder_frame (convert sz junk fresh buf) pts).linesize1 = int_of_u32 (buf.framedesc.width / 2) ∧
    (encoder_frame (convert sz junk fresh buf) pts).linesize2 = int_of_u32 (buf.framedesc.width / 2) ∧
    (encoder_frame (convert sz junk fresh buf) pts).buf = convert sz junk fresh buf := by
  simp only [convert, if_pos hsz]
  exact ⟨rfl, rfl, rfl, rfl, rfl, rfl, rfl⟩

/-- When the V pointer does not start above the U pointer, every store through
`destv` in the inner chroma loop survives: no later store through `destu`
reaches it. -/
theorem chroma_inner_value_v (src : Mem) (n : Nat) (c : ChromaCursor)
    (hle : c.destv ≤ c.destu) (j : Nat) (hj : j < n) :
    (chroma_inner src n c).dest.mem (c.destv + j) = src (c.curuv + 2 * (j : Int) + 1) := by
  induction n with
  | zero => omega
  | succ n ih =>
    obtain ⟨_, h2, h3, h4⟩ := chroma_inner_ptrs src n c
    simp only [chroma_inner, chroma_pair, store_mem, h2, h3, h4]
    by_cases hjn : j = n
    · subst hjn
      rw [if_pos rfl]
    · have n1 : ¬ (c.destv + (j : Int) = c.destv + n) := by omega
      have n2 : ¬ (c.destv + (j : Int) = c.destu + n) := by omega
      rw [if_neg n1, if_neg n2]
      exact ih (by omega)

/-- With a single chroma row and the V plane starting at or below the U plane,
the byte at the start of the V plane plus `j` is the odd byte of pair `j`. -/
theorem convert_v_wins (sz : Nat) (junk : camera_buffer_t) (fresh : Mem) (buf : camera_buffer_t)
    (hH : buf.framedesc.height / 2 = 1)
    (hle : packed_v_offset buf.framedesc.width buf.framedesc.height ≤
      packed_uv_offset buf.framedesc.width buf.framedesc.height)
    (j : Nat) (hj : j < buf.framedesc.width / 2) :
    (convert sz junk fresh buf).framebuf
        (packed_v_offset buf.framedesc.width buf.framedesc.height + (j : Int)) =
      buf.framebuf (buf.framedesc.uv_offset + 2 * (j : Int) + 1) := by
  show (convert_dest fresh buf).mem _ = _
  unfold convert_dest
  simp only []
  rw [hH]
  exact chroma_inner_value_v buf.framebuf (buf.framedesc.width / 2)
    { srcuv := buf.framedesc.uv_offset
      curuv := buf.framedesc.uv_offset
      destu := packed_uv_offset buf.framedesc.width buf.framedesc.height
      destv := packed_v_offset buf.framedesc.width buf.framedesc.height
      dest := luma_loop buf.framedesc.width buf.framedesc.stride buf.framedesc.width
        buf.framebuf { mem := fresh, stores := [] } buf.framedesc.height }
    hle j hj

/-! ## C18: converter and worker agree on the plane layout -/

/-- C18 (as amended): for every accepted frame whose `framesize` is at least the
size of the structure `camera_buffer_t`, with `width * height * 3 < 2^32`
and `width < 2^31`, the frame the worker hands to the encoder for the converted
frame has plane 0 at offset 0 with line size `width`, plane 1 at the chroma
offset of the descriptor, `width * height`, with line size `width / 2`, and
plane 2 at `width * height + (width * height) / 4` with line size `width / 2`;
these are the offsets at which the converter started to store luma, U and V,
and row `i`, column `j` of each plane as the encoder addresses it is the byte
the converter stored for that sample: the luma byte of source row `i`, column
`j`, and the even and the odd byte of pair `j` in source chroma row `i`. -/
theorem planes_agree (sz : Nat) (junk : camera_buffer_t) (fresh : Mem) (buf : camera_buffer_t)
    (ctx : ffcamera_context) (pts : Int) (hacc : accepted buf ctx) (hsz : sz ≤ buf.framesize)
    (hwh : buf.framedesc.width * buf.framedesc.height * 3 < 4294967296)
    (hw : buf.framedesc.width < 2147483648) :
    ∃ _buf, enqueued sz junk fresh buf ctx = [_buf] ∧
      (encoder_frame _buf pts).data0 = 0 ∧
      (encoder_frame _buf pts).data1 = _buf.framedesc.uv_offset ∧
      (encoder_frame _buf pts).data1 =
        packed_uv_offset buf.framedesc.width buf.framedesc.height ∧
      (encoder_frame _buf pts).data2 =
        packed_v_offset buf.framedesc.width buf.framedesc.height ∧
      (encoder_frame _buf pts).data1 =
        ((buf.framedesc.width * buf.framedesc.height : Nat) : Int) ∧
      (encoder_frame _buf pts).data2 =
        ((buf.framedesc.width * buf.framedesc.height +
          buf.framedesc.width * buf.framedesc.height / 4 : Nat) : Int) ∧
      (encoder_frame _buf pts).linesize0 = (buf.framedesc.width : Int) ∧
      (encoder_frame _buf pts).linesize1 = ((buf.framedesc.width / 2 : Nat) : Int) ∧
      (encoder_frame _buf pts).linesize2 = ((buf.framedesc.width / 2 : Nat) : Int) ∧
      (∀ i k : Nat, i < buf.framedesc.height → k < buf.framedesc.width →
        plane0_byte (encoder_frame _buf pts) i k =
          buf.framebuf (((u32 (i * buf.framedesc.stride) : Nat) : Int) + k)) ∧
      (∀ i j : Nat, i < buf.framedesc.height / 2 → j < buf.framedesc.width / 2 →
        plane1_byte (encoder_frame _buf pts) i j =
          buf.framebuf
            (buf.framedesc.uv_offset + ((i * buf.framedesc.stride : Nat) : Int) +
              2 * (j : Int)) ∧
        plane2_byte (encoder_frame _buf pts) i j =
          buf.framebuf
            (buf.framedesc.uv_offset + ((i * buf.framedesc.stride : Nat) : Int) +
              2 * (j : Int) + 1)) := by
  have hlt : buf.framedesc.width * buf.framedesc.height < 4294967296 := by omega
  have hl0 := int_of_u32_of_lt hw
  have hl1 : int_of_u32 (buf.framedesc.width / 2) = ((buf.framedesc.width / 2 : Nat) : Int) :=
    int_of_u32_of_lt (by omega)
  obtain ⟨e0, e1, e2, e3, e4, e5, e6⟩ := encoder_frame_convert sz junk fresh buf pts hsz
  refine ⟨convert sz junk fresh buf, enqueued_accepted sz junk fresh buf ctx hacc, e0, rfl, e1, e2,
    e1.trans (packed_uv_offset_of_lt hlt), e2.trans (packed_v_offset_of_lt hlt),
    e3.trans hl0, e4.trans hl1, e5.trans hl1, ?_, ?_⟩
  · intro i k hi hk
    unfold plane0_byte
    rw [e0, e3, e6, hl0, ← convert_luma sz junk fresh buf hlt i k hi hk]
    congr 1
    push_cast
    ring
  · intro i j hi hj
    obtain ⟨v1, v2⟩ := convert_chroma sz junk fresh buf hlt i j hi hj
    constructor
    · unfold plane1_byte
      rw [e1, e4, e6, hl1, packed_uv_offset_of_lt hlt, ← v1]
      congr 1
      push_cast
      ring
    · unfold plane2_byte
      rw [e2, e5, e6, hl1, packed_v_offset_of_lt hlt, ← v2]
      congr 1
      push_cast
      ring

/-- Witness for C18: the 16x16 frame of stride 20 with chroma at 320; row 2,
column 3 of the three planes. -/
theorem planes_agree_witness :
    ∃ _buf, enqueued 512 junk_block zeros (nv12_frame 16 16 20 320) ready_context = [_buf] ∧
      (encoder_frame _buf 0).data1 = 256 ∧
      (encoder_frame _buf 0).data2 = 320 ∧
      (encoder_frame _buf 0).linesize0 = 16 ∧
      (encoder_frame _buf 0).linesize1 = 8 ∧
      plane0_byte (encoder_frame _buf 0) 2 3 = ramp 43 ∧
      plane1_byte (encoder_frame _buf 0) 2 3 = ramp 366 ∧
      plane2_byte (encoder_frame _buf 0) 2 3 = ramp 367 := by
  obtain ⟨b, h0, _, _, _, _, h5, h6, h7, h8, _, h10, h11⟩ :=
    planes_agree 512 junk_block zeros (nv12_frame 16 16 20 320) ready_context 0
      (ready_context_accepts 16 16 20 320) (by decide) (by decide) (by decide)
  exact ⟨b, h0, h5, h6, h7, h8, h10 2 3 (by decide) (by decide),
    (h11 2 3 (by decide) (by decide)).1, (h11 2 3 (by decide) (by decide)).2⟩

/-- C18 as stated fails.  For the accepted frame of width `2^31` and height 2
the line size of plane 0 is `width` converted to `int`, `-2^31`, and the product
`width * height` wraps to `0`, so `destu` and `destv` both start at offset 0:
the byte the encoder reads at row 0, column 0 of plane 1 is the odd byte of the
first chroma pair, stored last, not the even byte the converter stored there for
the U sample.  For a frame of width `2^31` and height 0, whose size does not
wrap, the line size of plane 0 is again `-2^31`, not `width`.  For the accepted
16x16 frame whose `framesize` is 0, with a structure of 512 bytes, line 256
copies nothing and the worker reads the width from what the block held, here
0: the line size of plane 0 is 0, not 16. -/
theorem planes_agree_fails_on_wrap :
    (accepted (nv12_frame 2147483648 2 2147483648 4294967296) ready_context ∧
      ¬ (∃ _buf, enqueued 512 junk_block zeros (nv12_frame 2147483648 2 2147483648 4294967296)
            ready_context = [_buf] ∧
          (encoder_frame _buf 0).linesize0 = 2147483648) ∧
      ¬ (∃ _buf, enqueued 512 junk_block zeros (nv12_frame 2147483648 2 2147483648 4294967296)
            ready_context = [_buf] ∧
          ∀ i j : Nat, i < 2 / 2 → j < 2147483648 / 2 →
            plane1_byte (encoder_frame _buf 0) i j =
              (nv12_frame 2147483648 2 2147483648 4294967296).framebuf
                (4294967296 + ((i * 2147483648 : Nat) : Int) + 2 * (j : Int)))) ∧
    (accepted (nv12_frame 2147483648 0 2147483648 0) ready_context ∧
      2147483648 * 0 * 3 < 4294967296 ∧
      ¬ (∃ _buf, enqueued 512 junk_block zeros (nv12_frame 2147483648 0 2147483648 0)
            ready_context = [_buf] ∧
          (encoder_frame _buf 0).linesize0 = 2147483648)) ∧
    (accepted short_frame ready_context ∧ short_frame.framedesc.width = 16 ∧
      ¬ (∃ _buf, enqueued 512 junk_block zeros short_frame ready_context = [_buf] ∧
          (encoder_frame _buf 0).linesize0 = 16)) := by
  have hls : int_of_u32 2147483648 = -2147483648 := by
    unfold int_of_u32
    norm_num
  have hshort : accepted short_frame ready_context := ⟨rfl, _, rfl, rfl⟩
  refine ⟨⟨ready_context_accepts _ _ _ _, ?_, ?_⟩, ⟨ready_context_accepts _ _ _ _,
    by decide, ?_⟩, hshort, rfl, ?_⟩
  · rintro ⟨b, hb, hv⟩
    have hbe := eq_convert_of_enqueued 512 junk_block zeros _ _ (ready_context_accepts _ _ _ _) b hb
    subst hbe
    rw [(encoder_frame_convert 512 junk_block zeros
      (nv12_frame 2147483648 2 2147483648 4294967296) 0 (by decide)).2.2.2.1] at hv
    have e : (nv12_frame 2147483648 2 2147483648 4294967296).framedesc.width = 2147483648 := rfl
    rw [e, hls] at hv
    omega
  · rintro ⟨b, hb, hv⟩
    have hbe := eq_convert_of_enqueued 512 junk_block zeros _ _ (ready_context_accepts _ _ _ _) b hb
    subst hbe
    have h00 := hv 0 0 (by decide) (by decide)
    obtain ⟨_, e1, _, _, e4, _, e6⟩ :=
      encoder_frame_convert 512 junk_block zeros (nv12_frame 2147483648 2 2147483648 4294967296) 0
        (by decide)
    have hwin := convert_v_wins 512 junk_block zeros (nv12_frame 2147483648 2 2147483648 4294967296)
      (by norm_num [nv12_frame])
      (by norm_num [packed_v_offset, packed_uv_offset, u32, nv12_frame]) 0
      (by norm_num [nv12_frame])
    have haddr : packed_uv_offset
          (nv12_frame 2147483648 2 2147483648 4294967296).framedesc.width
          (nv12_frame 2147483648 2 2147483648 4294967296).framedesc.height +
        ((0 : Nat) : Int) *
          int_of_u32 ((nv12_frame 2147483648 2 2147483648 4294967296).framedesc.width / 2) +
        ((0 : Nat) : Int) =
        packed_v_offset (nv12_frame 2147483648 2 2147483648 4294967296).framedesc.width
          (nv12_frame 2147483648 2 2147483648 4294967296).framedesc.height +
          ((0 : Nat) : Int) := by
      norm_num [packed_v_offset, packed_uv_offset, u32, nv12_frame]
    unfold plane1_byte at h00
    rw [e1, e4, e6, haddr, hwin] at h00
    revert h00
    simp [nv12_frame, ramp]
  · rintro ⟨b, hb, hv⟩
    have hbe := eq_convert_of_enqueued 512 junk_block zeros _ _ (ready_context_accepts _ _ _ _) b hb
    subst hbe
    rw [(encoder_frame_convert 512 junk_block zeros (nv12_frame 2147483648 0 2147483648 0) 0
      (by decide)).2.2.2.1] at hv
    have e : (nv12_frame 2147483648 0 2147483648 0).framedesc.width = 2147483648 := rfl
    rw [e, hls] at hv
    omega
  · rintro ⟨b, hb, hv⟩
    have hbe := eq_convert_of_enqueued 512 junk_block zeros _ _ hshort b hb
    subst hbe
    have h0 : (encoder_frame (convert 512 junk_block zeros short_frame) 0).linesize0 = 0 := by
      simp [encoder_frame, convert, short_frame, nv12_frame, junk_block, int_of_u32]
    omega

end FFCam
